import Mathlib

/-!
Verification development for the wtfDB storage engine: a shallow embedding of
the B+Tree index (src/index, src/unnamed/part_000, part_005), the buffer pool
(src/memory/buffer.go), the LRU-K replacer (src/memory/evictionpolicy.go) and
the disk manager (src/unnamed/part_007), together with theorems settling the
specification claims about them.

Modelling conventions:
* Go `int`/`int64` values are `Int`; Go `uint64`/`uint32` values are `Nat`
  with explicit reductions modulo `2 ^ 64` / `2 ^ 32` at the conversions the
  source performs.
* A Go byte slice handed to the serializers is a `PageBuf`: a length together
  with a total byte function; offsets at or beyond the length are never read
  or written for the node sizes that occur in the program.
* Go maps are association lists; iterating a map is iterating the list, so a
  theorem quantified over all states covers every iteration order the Go
  runtime may pick.
-/

namespace WtfDB

/-- Go conversion `int(u)` of a `uint64` value: two's-complement reading. -/
def toSigned64 (u : Nat) : Int :=
  if u < 2 ^ 63 then (u : Int) else (u : Int) - 2 ^ 64

/-- Go conversion `int(int32(u))` of a `uint32` value: two's-complement reading. -/
def toSigned32 (u : Nat) : Int :=
  if u < 2 ^ 31 then (u : Int) else (u : Int) - 2 ^ 32

/-- Go conversion `uint64(i)` of a signed integer. -/
def toUint64 (i : Int) : Nat := (i % (2 ^ 64 : Int)).toNat

/-- Go conversion `uint32(i)` of a signed integer. -/
def toUint32 (i : Int) : Nat := (i % (2 ^ 32 : Int)).toNat

/-- Go `int64` subtraction (wraps modulo `2 ^ 64`). -/
def int64Sub (a b : Int) : Int := toSigned64 ((a - b) % (2 ^ 64 : Int)).toNat

/-- Value of `math.MinInt` on a 64-bit platform. -/
def minInt64 : Int := -(2 ^ 63)

/-- Value of `math.MaxInt` on a 64-bit platform. -/
def maxInt64 : Int := 2 ^ 63 - 1

/-- A fixed-length byte buffer (a Go byte slice of the given length). -/
structure PageBuf where
  len : Nat
  byteAt : Nat → Nat
deriving Inhabited

/-- An all-zero buffer of length `n`; also models `Frame.ZeroBuffer`. -/
def zeroPage (n : Nat) : PageBuf := ⟨n, fun _ => 0⟩

/-- Model of `binary.BigEndian.PutUint32 buf[off:] v`. -/
def putUint32BE (b : PageBuf) (off v : Nat) : PageBuf :=
  ⟨b.len, fun i =>
    if i = off then v / 2 ^ 24 % 256
    else if i = off + 1 then v / 2 ^ 16 % 256
    else if i = off + 2 then v / 2 ^ 8 % 256
    else if i = off + 3 then v % 256
    else b.byteAt i⟩

/-- Model of `binary.BigEndian.PutUint64 buf[off:] v`. -/
def putUint64BE (b : PageBuf) (off v : Nat) : PageBuf :=
  ⟨b.len, fun i =>
    if i = off then v / 2 ^ 56 % 256
    else if i = off + 1 then v / 2 ^ 48 % 256
    else if i = off + 2 then v / 2 ^ 40 % 256
    else if i = off + 3 then v / 2 ^ 32 % 256
    else if i = off + 4 then v / 2 ^ 24 % 256
    else if i = off + 5 then v / 2 ^ 16 % 256
    else if i = off + 6 then v / 2 ^ 8 % 256
    else if i = off + 7 then v % 256
    else b.byteAt i⟩

/-- Model of `binary.BigEndian.Uint32 buf[off:]`. -/
def getUint32BE (b : PageBuf) (off : Nat) : Nat :=
  b.byteAt off * 2 ^ 24 + b.byteAt (off + 1) * 2 ^ 16 +
    b.byteAt (off + 2) * 2 ^ 8 + b.byteAt (off + 3)

/-- Model of `binary.BigEndian.Uint64 buf[off:]`. -/
def getUint64BE (b : PageBuf) (off : Nat) : Nat :=
  b.byteAt off * 2 ^ 56 + b.byteAt (off + 1) * 2 ^ 48 +
    b.byteAt (off + 2) * 2 ^ 40 + b.byteAt (off + 3) * 2 ^ 32 +
    b.byteAt (off + 4) * 2 ^ 24 + b.byteAt (off + 5) * 2 ^ 16 +
    b.byteAt (off + 6) * 2 ^ 8 + b.byteAt (off + 7)

/-- Model of `binary.LittleEndian.Uint64 buf[off:]`. -/
def getUint64LE (b : PageBuf) (off : Nat) : Nat :=
  b.byteAt off + b.byteAt (off + 1) * 2 ^ 8 +
    b.byteAt (off + 2) * 2 ^ 16 + b.byteAt (off + 3) * 2 ^ 24 +
    b.byteAt (off + 4) * 2 ^ 32 + b.byteAt (off + 5) * 2 ^ 40 +
    b.byteAt (off + 6) * 2 ^ 48 + b.byteAt (off + 7) * 2 ^ 56

/-- Write a list of signed keys as consecutive big-endian `uint64` fields,
mirroring the serialization loops of `leafNode.toBytes` / `innerNode.toBytes`. -/
def putInts64BE : PageBuf → Nat → List Int → PageBuf
  | b, _, [] => b
  | b, off, k :: ks => putInts64BE (putUint64BE b off (toUint64 k)) (off + 8) ks

/-- Write a list of `uint64` children as consecutive big-endian fields. -/
def putNats64BE : PageBuf → Nat → List Nat → PageBuf
  | b, _, [] => b
  | b, off, k :: ks => putNats64BE (putUint64BE b off (k % 2 ^ 64)) (off + 8) ks

/-- Read `n` consecutive big-endian `uint64` fields as signed integers. -/
def readInts64BE (b : PageBuf) (off n : Nat) : List Int :=
  (List.range n).map (fun i => toSigned64 (getUint64BE b (off + 8 * i)))

/-- Read `n` consecutive little-endian `uint64` fields. -/
def readNats64LE (b : PageBuf) (off n : Nat) : List Nat :=
  (List.range n).map (fun i => getUint64LE b (off + 8 * i))

/-- Constant `io.PageSize` (4096 bytes). -/
def pageSize : Nat := 4 * 1024

/-- Constant `LeafPageHeaderSize` from src/index/leafnode.go. -/
def LeafPageHeaderSize : Nat := 16

/-- Constant `InternalPageHeaderSize` from src/unnamed/part_000. -/
def InternalPageHeaderSize : Nat := 12

/-- Constant `memory.InvalidPageId`. -/
def InvalidPageId : Int := -1

/-- Constant `NonExistentSiblingLink = math.MaxInt` from src/unnamed/part_000. -/
def NonExistentSiblingLink : Int := maxInt64

/-- Logical content of a `leafNode` (src/index/leafnode.go): sorted keys, the
parallel record ids, and the right-sibling page id. -/
structure LeafNodeData where
  keys : List Int
  recordIds : List Int
  rightSibling : Int
deriving DecidableEq, Inhabited

/-- Logical content of an `innerNode` (src/unnamed/part_000): keys (first slot
is the `math.MinInt` sentinel), parallel child page numbers, right sibling. -/
structure InnerNodeData where
  keys : List Int
  children : List Nat
  rightSibling : Int
deriving DecidableEq, Inhabited

/-- Method `leafNode.getSize`: the number of keys plus the number of record ids. -/
def leafGetSize (l : LeafNodeData) : Nat := l.keys.length + l.recordIds.length

/-- Method `leafNode.getMaxSize` (the source hardcodes `4 * 2`). -/
def leafGetMaxSize : Nat := 4 * 2

/-- Method `innerNode.getSize`: the number of keys plus the number of children. -/
def innerGetSize (n : InnerNodeData) : Nat := n.keys.length + n.children.length

/-- Method `innerNode.getMaxSize` (the source hardcodes `4 * 2`). -/
def innerGetMaxSize : Nat := 4 * 2

/-- Method `leafNode.toBytes` (src/index/leafnode.go lines 301-328): zero the
buffer, write the header (type 1, current size, max size, right sibling as
`uint32`), then the keys and record ids as big-endian `uint64` fields.
Returns `none` on the buffer-length or length-mismatch error paths, in which
case the source leaves the buffer untouched. -/
def leafToBytes (l : LeafNodeData) (buf : PageBuf) : Option PageBuf :=
  if buf.len < LeafPageHeaderSize then none
  else if l.keys.length ≠ l.recordIds.length then none
  else
    let b0 := zeroPage buf.len
    let b1 := putUint32BE b0 0 1
    let b2 := putUint32BE b1 4 (leafGetSize l)
    let b3 := putUint32BE b2 8 leafGetMaxSize
    let b4 := putUint32BE b3 12 (toUint32 l.rightSibling)
    let b5 := putInts64BE b4 LeafPageHeaderSize l.keys
    some (putInts64BE b5 (LeafPageHeaderSize + l.keys.length * 8) l.recordIds)

/-- Method `leafNode.fromBytes` (src/index/leafnode.go lines 335-366): check
the header length and the page type, read `currentSize / 2` keys from offset
16, the record ids after them, and sign-extend the right sibling through
`int32`. -/
def leafFromBytes (buf : PageBuf) : Option LeafNodeData :=
  if buf.len < LeafPageHeaderSize then none
  else if getUint32BE buf 0 ≠ 1 then none
  else
    let currentSize := getUint32BE buf 4
    let nk := currentSize / 2
    some ⟨readInts64BE buf LeafPageHeaderSize nk,
      readInts64BE buf (LeafPageHeaderSize + nk * 8) nk,
      toSigned32 (getUint32BE buf 12)⟩

/-- Method `innerNode.toBytes` (src/unnamed/part_000 lines 246-264): requires
equally many children and keys, zeroes the buffer, writes the header (type 0,
size, right sibling as `uint32`), the keys big-endian from offset 12, and the
children big-endian from offset `12 + 8 * len(keys)`. -/
def innerToBytes (n : InnerNodeData) (buf : PageBuf) : Option PageBuf :=
  if n.children.length ≠ n.keys.length then none
  else
    let b0 := zeroPage buf.len
    let b1 := putUint32BE b0 0 0
    let b2 := putUint32BE b1 4 (innerGetSize n)
    let b3 := putUint32BE b2 8 (toUint32 n.rightSibling)
    let b4 := putInts64BE b3 InternalPageHeaderSize n.keys
    some (putNats64BE b4 (InternalPageHeaderSize + 8 * n.keys.length) n.children)

/-- Method `innerNode.fromBytes` (src/unnamed/part_000 lines 269-302): check
the header length and page type, read `keyCount / 2` keys big-endian from
offset 12, then read `keyCount / 2` children little-endian from offset
`12 + keyCount * 8`, and read the right sibling as a plain `uint32` (the
source applies no `int32` sign conversion here). -/
def innerFromBytes (buf : PageBuf) : Option InnerNodeData :=
  if buf.len < InternalPageHeaderSize then none
  else if getUint32BE buf 0 ≠ 0 then none
  else
    let keyCount := getUint32BE buf 4
    some ⟨readInts64BE buf InternalPageHeaderSize (keyCount / 2),
      readNats64LE buf (InternalPageHeaderSize + keyCount * 8) (keyCount / 2),
      (getUint32BE buf 8 : Int)⟩

/-- A concrete inner node: sentinel first key, one separator, two children,
no right sibling. -/
def c4InnerSample : InnerNodeData := ⟨[minInt64, 103], [5, 7], -1⟩

/-! ## LRU-K replacer (src/memory/evictionpolicy.go) -/

/-- Per-frame replacer metadata `LruKFrameAccessMetadata`: the access history
(oldest first) and the evictable flag. The order-list handle `e` is modelled
by the frame's position in the `lru` list below. -/
structure LruKFrameAccessMetadata where
  history : List Int
  isEvictable : Bool
deriving DecidableEq, Inhabited

/-- Lookup in the `metadataStore` map, modelled as an association list. -/
def storeFind (s : List (Nat × LruKFrameAccessMetadata)) (f : Nat) :
    Option LruKFrameAccessMetadata :=
  (s.find? (fun p => p.1 == f)).map Prod.snd

/-- Go map assignment `store[f] = m`: replace the binding if present,
otherwise add one. -/
def storePut (s : List (Nat × LruKFrameAccessMetadata)) (f : Nat)
    (m : LruKFrameAccessMetadata) : List (Nat × LruKFrameAccessMetadata) :=
  if (s.find? (fun p => p.1 == f)).isSome then
    s.map (fun p => if p.1 == f then (f, m) else p)
  else s ++ [(f, m)]

/-- Go map deletion `delete(store, f)`. -/
def storeErase (s : List (Nat × LruKFrameAccessMetadata)) (f : Nat) :
    List (Nat × LruKFrameAccessMetadata) :=
  s.filter (fun p => p.1 != f)

/-- State of `LruKReplacer`. The Go `metadataStore` map is an association
list whose order stands for the map's iteration order; `lru` is the order
list front-first. -/
structure LruKReplacer where
  k : Nat
  maxSize : Int
  size : Int
  metadataStore : List (Nat × LruKFrameAccessMetadata)
  lru : List Nat
deriving DecidableEq, Inhabited

/-- Errors surfaced by the replacer, identified by the prefix of the Go error
message that `evict` dispatches on. -/
inductive LruEvictErr
  | insufficientHistory
  | cannotEvict
deriving DecidableEq

/-- Method `LruKReplacer.recordAccess`: append the current timestamp to the
frame's history and move it to the back of the order list; a new frame is
pushed at the back with a fresh one-entry history (evictable defaults to
false, the Go zero value). The wall-clock timestamp is the `now` argument. -/
def LruKReplacer.recordAccess (r : LruKReplacer) (frameId : Nat) (now : Int) :
    LruKReplacer :=
  match storeFind r.metadataStore frameId with
  | some m =>
      { r with
        metadataStore := storePut r.metadataStore frameId ⟨m.history ++ [now], m.isEvictable⟩,
        lru := r.lru.erase frameId ++ [frameId] }
  | none =>
      { r with
        metadataStore := storePut r.metadataStore frameId ⟨[now], false⟩,
        lru := r.lru ++ [frameId] }

/-- Method `LruKReplacer.getBackwardKDistance` (lines 146-158): a missing
frame id yields the map zero value; a non-evictable frame returns `(-1, err)`
(modelled as the `false` flag); otherwise the distance is `math.MaxInt` when
the history has fewer than `k` entries, and
`history[n-1] - history[k-1]` (as Go `int64` subtraction) when it has at
least `k`. -/
def LruKReplacer.getBackwardKDistance (r : LruKReplacer) (frameId : Nat) :
    Int × Bool :=
  let node := (storeFind r.metadataStore frameId).getD default
  let n := node.history.length
  if node.isEvictable then
    (if r.k ≤ n then
        int64Sub (node.history.getD (n - 1) 0) (node.history.getD (r.k - 1) 0)
      else maxInt64, true)
  else (-1, false)

/-- Loop body of `LruKReplacer.hasLargestKInterval` (lines 111-129), folded
over the store in iteration order with state
`(longestK, frameId, countInf)`; the loop breaks early once
`countInf >= size / 2`. -/
def hasLargestKIntervalLoop (r : LruKReplacer) :
    List (Nat × LruKFrameAccessMetadata) → Int × Int × Int → Int × Int × Int
  | [], st => st
  | (f, _) :: rest, (longestK, frameId, countInf) =>
    if r.size.tdiv 2 ≤ countInf then (longestK, frameId, countInf)
    else
      let di := r.getBackwardKDistance f
      if di.2 ∧ di.1 = maxInt64 then
        hasLargestKIntervalLoop r rest (longestK, frameId, countInf + 1)
      else if longestK < di.1 then
        hasLargestKIntervalLoop r rest (di.1, (f : Int), countInf)
      else hasLargestKIntervalLoop r rest (longestK, frameId, countInf)

/-- Method `LruKReplacer.hasLargestKInterval` (lines 107-141): run the loop,
then report `insufficientHistory` when any +inf frame was counted, success
when some finite distance was found, and `cannotEvict` otherwise. -/
def LruKReplacer.hasLargestKInterval (r : LruKReplacer) :
    Int × Option LruEvictErr :=
  let st := hasLargestKIntervalLoop r r.metadataStore (-1, -1, 0)
  if 0 < st.2.2 ∧ st.2.2 ≤ r.size then (-1, some LruEvictErr.insufficientHistory)
  else if -1 < st.1 then (st.2.1, none)
  else (st.2.1, some LruEvictErr.cannotEvict)

/-- Method `LruKReplacer.getLRUFrame` (lines 162-175): the first frame in
order-list order that is evictable and has fewer than `k` accesses. -/
def LruKReplacer.getLRUFrame (r : LruKReplacer) : Int × Option LruEvictErr :=
  match r.lru.find? (fun f =>
      let m := (storeFind r.metadataStore f).getD default
      m.isEvictable && decide (m.history.length < r.k)) with
  | some f => ((f : Int), none)
  | none => (-1, some LruEvictErr.cannotEvict)

/-- Method `LruKReplacer.cleanup` (lines 226-231): drop the frame from the
order list and the store and decrement `size`. -/
def LruKReplacer.cleanup (r : LruKReplacer) (frameId : Nat) : LruKReplacer :=
  { r with
    lru := r.lru.erase frameId,
    metadataStore := storeErase r.metadataStore frameId,
    size := r.size - 1 }

/-- Method `LruKReplacer.evict` (lines 59-72): try `hasLargestKInterval`; on
success return that frame with no cleanup; on the insufficient-history error
fall back to `getLRUFrame` and clean up its victim; otherwise propagate the
error with the state unchanged. -/
def LruKReplacer.evict (r : LruKReplacer) : (Int × Option LruEvictErr) × LruKReplacer :=
  let fe := r.hasLargestKInterval
  match fe.2 with
  | none => ((fe.1, none), r)
  | some LruEvictErr.insufficientHistory =>
    let le := r.getLRUFrame
    match le.2 with
    | none => ((le.1, none), r.cleanup le.1.toNat)
    | some _ => ((-1, some LruEvictErr.insufficientHistory), r)
  | some LruEvictErr.cannotEvict => ((-1, some LruEvictErr.cannotEvict), r)

/-- Method `LruKReplacer.setEvictable` (lines 211-224): flip the flag of a
known frame and adjust `size`; unknown frames and re-marking with the same
value are no-ops. -/
def LruKReplacer.setEvictable (r : LruKReplacer) (frameId : Nat) (b : Bool) :
    LruKReplacer :=
  match storeFind r.metadataStore frameId with
  | none => r
  | some m =>
    if m.isEvictable ∧ b = false then
      { r with
        metadataStore := storePut r.metadataStore frameId ⟨m.history, b⟩,
        size := r.size - 1 }
    else if m.isEvictable = false ∧ b then
      { r with
        metadataStore := storePut r.metadataStore frameId ⟨m.history, b⟩,
        size := r.size + 1 }
    else r

/-- Modelled from the spec: `NewLruKReplacer` is called by
`NewBufferPoolManager` but its definition is not among the source files. The
spec fixes the default `k = 2` and an initially empty replacer whose `size`
(the count of evictable frames) starts at 0. `maxSize` is not consulted by
any modelled operation. -/
def NewLruKReplacer : LruKReplacer := ⟨2, 0, 0, [], []⟩

/-- A replacer with `k = 2` tracking one evictable frame whose two accesses
happened at times 0 and 10. -/
def c6Replacer : LruKReplacer := ⟨2, 7, 1, [(0, ⟨[0, 10], true⟩)], [0]⟩

/-- A replacer with `k = 2` tracking exactly one frame, which is evictable
and has two recorded accesses. -/
def c5Replacer : LruKReplacer := ⟨2, 7, 1, [(0, ⟨[0, 1], true⟩)], [0]⟩

/-- A replacer with `k = 2` tracking two evictable frames, both with three
recorded accesses (finite backward k-distances 5 and 1). -/
def c7Replacer : LruKReplacer :=
  ⟨2, 7, 2, [(0, ⟨[0, 5, 10], true⟩), (1, ⟨[2, 3, 4], true⟩)], [0, 1]⟩

/-! ## Disk manager (src/unnamed/part_007) -/

/-- Error kinds of the disk manager. -/
inductive DiskErr
  | readFromDisk
  | writeToDisk
  | flushToDisk
deriving DecidableEq

/-- Method `DefaultDiskManager.ReadPage` (lines 77-89). `ReadAt` copies
`n = min(len(buf), max(0, len(file) - offset))` bytes from the file into the
front of the buffer and reports `io.EOF` when `n < len(buf)`; a negative
offset or an underlying device failure (abstracted by the `fault` flag) is a
non-EOF error. `ReadPage` maps every non-EOF error to `ErrorReadFromDisk`
and returns success otherwise; a short read at end-of-file is only logged,
and the bytes of `buf` past the `n` read bytes are not touched. -/
def DefaultDiskManagerReadPage (fault : Bool) (file : List Nat) (pageId : Int)
    (buf : PageBuf) : PageBuf × Option DiskErr :=
  let offset : Int := pageId * (pageSize : Int)
  if fault ∨ offset < 0 then (buf, some DiskErr.readFromDisk)
  else
    let off := offset.toNat
    let n := min buf.len (file.length - off)
    (⟨buf.len, fun i => if i < n then file.getD (off + i) 0 else buf.byteAt i⟩, none)

/-- Method `DefaultDiskManager.WritePage` (lines 59-74): write the page-size
buffer at offset `pageId * PageSize`, extending the file with zeros if it is
shorter than the offset. The sync step has no effect in the fault-free
model. -/
def DefaultDiskManagerWritePage (file : List Nat) (pageId : Int)
    (data : PageBuf) : List Nat × Option DiskErr :=
  let offset : Int := pageId * (pageSize : Int)
  if offset < 0 then (file, some DiskErr.writeToDisk)
  else
    let off := offset.toNat
    let padded := file ++ List.replicate (off + data.len - file.length) 0
    ((List.range padded.length).map
        (fun i => if off ≤ i ∧ i < off + data.len then data.byteAt (i - off)
          else padded.getD i 0), none)

/-- A page-sized buffer holding the stale byte 7 everywhere, standing for a
recycled frame whose previous contents were never cleared. -/
def c9Buf : PageBuf := ⟨pageSize, fun _ => 7⟩

/-! ## Buffer pool manager (src/memory/buffer.go, second half) -/

/-- Struct `FrameMetadata`. -/
structure FrameMetadata where
  id : Nat
  pageId : Int
  isDirty : Bool
  refBit : Bool
  pinCount : Nat
deriving DecidableEq, Inhabited

/-- Struct `Frame`: metadata plus the page-sized data buffer. -/
structure Frame where
  meta : FrameMetadata
  data : PageBuf
deriving Inhabited

/-- Function `newFrame`: an unused frame with the invalid page id and a
zeroed page-size buffer. -/
def newFrame (i : Nat) : Frame := ⟨⟨i, InvalidPageId, false, false, 0⟩, zeroPage pageSize⟩

/-- Lookup in the `pageToFrame` map (page id to frame index), modelled as an
association list. -/
def pageMapFind (l : List (Int × Nat)) (p : Int) : Option Nat :=
  (l.find? (fun x => x.1 == p)).map Prod.snd

/-- Go map assignment `pageToFrame[p] = i`. -/
def pageMapPut (l : List (Int × Nat)) (p : Int) (i : Nat) : List (Int × Nat) :=
  if (l.find? (fun x => x.1 == p)).isSome then
    l.map (fun x => if x.1 == p then (p, i) else x)
  else l ++ [(p, i)]

/-- Go map deletion `delete(pageToFrame, p)`. -/
def pageMapErase (l : List (Int × Nat)) (p : Int) : List (Int × Nat) :=
  l.filter (fun x => x.1 != p)

/-- Struct `BufferPoolManager`. The disk manager is inlined as the backing
`file`; `clock` models the wall clock that `recordAccess` reads. -/
structure BufferPoolManager where
  frames : List Frame
  pageToFrame : List (Int × Nat)
  nextPageId : Int
  freeFrames : List Nat
  size : Nat
  file : List Nat
  replacer : LruKReplacer
  clock : Int
deriving Inhabited

/-- Function `NewBufferPoolManager`: `size` fresh frames, all free, an empty
resident map, page ids starting at 0 and a fresh replacer. -/
def NewBufferPoolManager (size : Nat) (file : List Nat) : BufferPoolManager :=
  ⟨(List.range size).map newFrame, [], 0, List.range size, size, file, NewLruKReplacer, 0⟩

/-- Apply an update to the frame at index `i` (Go mutates through the frame
pointer `m.frames[i]`). -/
def updateFrame (m : BufferPoolManager) (i : Nat) (g : Frame → Frame) :
    BufferPoolManager :=
  { m with frames := m.frames.set i (g (m.frames.getD i default)) }

/-- Method `BufferPoolManager.Pin` (lines 196-202): increment the pin count,
record an access at the current time, and mark the frame not evictable. -/
def BufferPoolManager.Pin (m : BufferPoolManager) (f : Nat) : BufferPoolManager :=
  let m1 := updateFrame m f
    (fun fr => { fr with meta := { fr.meta with pinCount := fr.meta.pinCount + 1 } })
  { m1 with
    replacer := (m1.replacer.recordAccess f m1.clock).setEvictable f false,
    clock := m1.clock + 1 }

/-- Method `BufferPoolManager.Unpin` (lines 205-213): a no-op on an unpinned
frame; otherwise decrement the pin count and mark the frame evictable
exactly when the count reached zero. -/
def BufferPoolManager.Unpin (m : BufferPoolManager) (f : Nat) : BufferPoolManager :=
  if (m.frames.getD f default).meta.pinCount = 0 then m
  else
    let m1 := updateFrame m f
      (fun fr => { fr with meta := { fr.meta with pinCount := fr.meta.pinCount - 1 } })
    { m1 with
      replacer := m1.replacer.setEvictable f
        (decide ((m1.frames.getD f default).meta.pinCount = 0)) }

/-- Method `BufferPoolManager.FlushPage` (lines 370-387): false for a
non-resident page; true for a clean one; otherwise write the frame through
the disk manager, clear the dirty flag and return true (false if the write
fails, which the fault-free disk model never does for resident pages). -/
def BufferPoolManager.FlushPage (m : BufferPoolManager) (pid : Int) :
    Bool × BufferPoolManager :=
  match pageMapFind m.pageToFrame pid with
  | none => (false, m)
  | some i =>
    let fr := m.frames.getD i default
    if fr.meta.isDirty = false then (true, m)
    else
      match DefaultDiskManagerWritePage m.file pid fr.data with
      | (file2, none) =>
        (true,
          { updateFrame m i
              (fun fr2 => { fr2 with meta := { fr2.meta with isDirty := false } }) with
            file := file2 })
      | (_, some _) => (false, m)

/-- Method `BufferPoolManager.evict` (lines 345-359): ask the replacer for a
victim (its state mutates either way); on success flush the victim's page,
abort if the flush fails, else drop the page from the resident map and hand
the frame index back. The Go `(bool, int)` result is an `Option Nat`. -/
def BufferPoolManager.evictFrame (m : BufferPoolManager) :
    Option Nat × BufferPoolManager :=
  let re := m.replacer.evict
  let m1 := { m with replacer := re.2 }
  match re.1.2 with
  | some _ => (none, m1)
  | none =>
    let i := re.1.1.toNat
    let fr := m1.frames.getD i default
    let fl := m1.FlushPage fr.meta.pageId
    if fl.1 = false then (none, fl.2)
    else (some i, { fl.2 with pageToFrame := pageMapErase fl.2.pageToFrame fr.meta.pageId })

/-- Read a page from the disk manager into the frame's buffer, discarding the
returned error exactly as the source does at both `ReadPage` call sites. -/
def readIntoFrame (m : BufferPoolManager) (i : Nat) (pid : Int) : BufferPoolManager :=
  updateFrame m i
    (fun fr => { fr with data := (DefaultDiskManagerReadPage false m.file pid fr.data).1 })

/-- Method `BufferPoolManager.newPage` (lines 252-275): allocate the next
page id; with a free frame available, remove it from the free list, bind the
page to it and stamp the frame's page id; otherwise evict a victim, reset
its metadata and bind the page; on eviction failure return `InvalidPageId`. -/
def BufferPoolManager.newPage (m : BufferPoolManager) : Int × BufferPoolManager :=
  let newPageId := m.nextPageId
  let m0 := { m with nextPageId := m.nextPageId + 1 }
  match m0.freeFrames with
  | frameIdx :: rest =>
    let m1 := { m0 with
      freeFrames := rest,
      pageToFrame := pageMapPut m0.pageToFrame newPageId frameIdx }
    (newPageId,
      updateFrame m1 frameIdx
        (fun fr => { fr with meta := { fr.meta with pageId := newPageId } }))
  | [] =>
    match m0.evictFrame with
    | (none, m1) => (InvalidPageId, m1)
    | (some i, m1) =>
      let m2 := updateFrame m1 i (fun fr => ⟨⟨i, newPageId, false, false, 0⟩, fr.data⟩)
      (newPageId, { m2 with pageToFrame := pageMapPut m2.pageToFrame newPageId i })

/-- Method `BufferPoolManager.getPageFrame` (lines 310-341). Case 1: the page
is resident. Case 2: a free frame exists — the source reads `freeFrames[0]`
but, unlike `newPage`, never removes it from the free list. Case 3: evict,
reset the victim's metadata, bind and read. -/
def BufferPoolManager.getPageFrame (m : BufferPoolManager) (pageId : Int) :
    Option Nat × BufferPoolManager :=
  match pageMapFind m.pageToFrame pageId with
  | some i => (some i, m)
  | none =>
    match m.freeFrames with
    | i :: _ =>
      let m1 := { m with pageToFrame := pageMapPut m.pageToFrame pageId i }
      let m2 := updateFrame m1 i
        (fun fr => { fr with meta := { fr.meta with pageId := pageId } })
      (some i, readIntoFrame m2 i pageId)
    | [] =>
      match m.evictFrame with
      | (none, m1) => (none, m1)
      | (some i, m1) =>
        let m2 := updateFrame m1 i (fun fr => ⟨⟨i, pageId, false, false, 0⟩, fr.data⟩)
        let m3 := { m2 with pageToFrame := pageMapPut m2.pageToFrame pageId i }
        (some i, readIntoFrame m3 i pageId)

/-- Method `BufferPoolManager.GetPage` (lines 286-293): fetch the frame and
pin it. -/
def BufferPoolManager.GetPage (m : BufferPoolManager) (pid : Int) :
    Option Nat × BufferPoolManager :=
  match m.getPageFrame pid with
  | (none, m1) => (none, m1)
  | (some i, m1) => (some i, m1.Pin i)

/-- Method `BufferPoolManager.GetNewPageFrame` (lines 242-244):
`GetPage(newPage())`. -/
def BufferPoolManager.GetNewPageFrame (m : BufferPoolManager) :
    Option Nat × BufferPoolManager :=
  let pm := m.newPage
  pm.2.GetPage pm.1

/-- State after asking a fresh two-frame pool for non-resident pages 5 and
then 7. -/
def c8Pool : BufferPoolManager :=
  ((NewBufferPoolManager 2 []).GetPage 5).2.GetPage 7 |>.snd

/-! ## B+Tree index (src/index/leafnode.go, src/unnamed/part_000, part_005)

The Go code manipulates heap-allocated node objects through pointers that
alias each other (the ancestor stack `seen` and the tree root point at the
same `innerNode` objects), so the embedding carries an explicit heap of node
objects: a pointer is an index into `TreeSt.nodes`. Frames are shared with
the buffer pool through their index, exactly as `Frame.Id` indexes
`BufferPoolManager.frames`. Go's recursion through the object graph is not
structural, so the recursive operations take a fuel parameter; the traces
below use ample fuel, and exhaustion returns the failure value. -/

/-- Model of the Go standard library `slices.BinarySearch` through its
documented contract: the smallest index at which `k` sorts into the list
(the first index whose element is at least `k`, or the length when there is
none), and whether `k` is present at that index. -/
def goBinarySearch (xs : List Int) (k : Int) : Nat × Bool :=
  let pos := xs.findIdx (fun x => decide (k ≤ x))
  (pos, decide (pos < xs.length) && decide (xs.getD pos 0 = k))

/-- Method `leafNode.insertSort` (src/index/leafnode.go lines 256-264): a
found key is a no-op, otherwise key and record id are inserted at the search
position. -/
def leafInsertSort (keys recordIds : List Int) (k rid : Int) :
    List Int × List Int :=
  let pf := goBinarySearch keys k
  if pf.2 then (keys, recordIds)
  else (keys.insertIdx pf.1 k, recordIds.insertIdx pf.1 rid)

/-- Method `innerNode.sInsert` (src/unnamed/part_000 lines 236-243): a found
key is a no-op, otherwise key and child page id are inserted at the search
position. -/
def innerSInsert (keys : List Int) (children : List Nat) (k : Int)
    (pageId : Nat) : List Int × List Nat :=
  let pf := goBinarySearch keys k
  if pf.2 then (keys, children)
  else (keys.insertIdx pf.1 k, children.insertIdx pf.1 pageId)

/-- A heap-allocated B+Tree node object: a `leafNode` or an `innerNode`
together with the index of the buffer-pool frame it is serialized on. -/
inductive NodeObj
  | leafN (d : LeafNodeData) (frameIdx : Nat)
  | innerN (d : InnerNodeData) (frameIdx : Nat)
deriving DecidableEq, Inhabited

/-- The `bPlusTree` together with its metadata and the node heap. `rootRef`
is the pointer `t.root`, `rootPageId` and `seen` are the
`BPlusTreeMetadata` fields consulted by Insert and Get (`order` and
`indexName` are never read by them). -/
structure TreeSt where
  bpm : BufferPoolManager
  nodes : List NodeObj
  rootRef : Nat
  rootPageId : Int
  seen : List Nat
deriving Inhabited

/-- Dereference a node pointer. -/
def getNode (s : TreeSt) (ref : Nat) : NodeObj := s.nodes.getD ref default

/-- Overwrite the node object a pointer refers to. -/
def setNode (s : TreeSt) (ref : Nat) (o : NodeObj) : TreeSt :=
  { s with nodes := s.nodes.set ref o }

/-- Allocate a fresh node object and return the pointer to it. -/
def allocNode (s : TreeSt) (o : NodeObj) : Nat × TreeSt :=
  (s.nodes.length, { s with nodes := s.nodes ++ [o] })

/-- The frame a node is serialized on (`n.frame`). -/
def nodeFrameIdx : NodeObj → Nat
  | NodeObj.leafN _ f => f
  | NodeObj.innerN _ f => f

/-- Method `isLeaf` of both node kinds. -/
def nodeIsLeaf : NodeObj → Bool
  | NodeObj.leafN _ _ => true
  | NodeObj.innerN _ _ => false

/-- Interface method `getSize` dispatched on the node kind. -/
def nodeGetSize : NodeObj → Nat
  | NodeObj.leafN d _ => leafGetSize d
  | NodeObj.innerN d _ => innerGetSize d

/-- Interface method `getMaxSize` dispatched on the node kind. -/
def nodeGetMaxSize : NodeObj → Nat
  | NodeObj.leafN _ _ => leafGetMaxSize
  | NodeObj.innerN _ _ => innerGetMaxSize

/-- Function `getPageType` (src/index/bplusnode.go): the big-endian `uint32`
in the first four bytes of the frame. -/
def framePageType (s : TreeSt) (frameIdx : Nat) : Int :=
  (getUint32BE (s.bpm.frames.getD frameIdx default).data 0 : Int)

/-- Replace the data buffer of a frame. -/
def writeFrameData (m : BufferPoolManager) (i : Nat) (b : PageBuf) :
    BufferPoolManager :=
  updateFrame m i (fun fr => { fr with data := b })

/-- Interface method `toBytes`: serialize the node onto its frame; the error
result is discarded at every call site, and on the error paths the buffer is
untouched. -/
def nodeToBytesSt (s : TreeSt) (ref : Nat) : TreeSt :=
  match getNode s ref with
  | NodeObj.leafN d fi =>
    match leafToBytes d (s.bpm.frames.getD fi default).data with
    | some b => { s with bpm := writeFrameData s.bpm fi b }
    | none => s
  | NodeObj.innerN d fi =>
    match innerToBytes d (s.bpm.frames.getD fi default).data with
    | some b => { s with bpm := writeFrameData s.bpm fi b }
    | none => s

/-- Set a frame's dirty flag (`frame.FrameMetadata.IsDirty = true`). -/
def setFrameDirty (s : TreeSt) (fi : Nat) : TreeSt :=
  { s with bpm := (updateFrame s.bpm fi
      (fun fr => { fr with meta := { fr.meta with isDirty := true } })) }

/-- Function `newLeafNode` (src/index/leafnode.go lines 123-137): obtain a
new pinned page frame and allocate a leaf object with empty keys and record
ids and the invalid right sibling; a buffer-pool failure yields `none` (the
Go nil pointer). -/
def newLeafNodeSt (s : TreeSt) : Option Nat × TreeSt :=
  match s.bpm.GetNewPageFrame with
  | (none, m1) => (none, { s with bpm := m1 })
  | (some fi, m1) =>
    let al := allocNode { s with bpm := m1 } (NodeObj.leafN ⟨[], [], InvalidPageId⟩ fi)
    (some al.1, al.2)

/-- Function `newInnerNode` (src/unnamed/part_000 lines 70-84): obtain a new
pinned page frame and allocate an inner object whose key list holds the
`math.MinInt` sentinel and whose child list is empty. -/
def newInnerNodeSt (s : TreeSt) : Option Nat × TreeSt :=
  match s.bpm.GetNewPageFrame with
  | (none, m1) => (none, { s with bpm := m1 })
  | (some fi, m1) =>
    let al := allocNode { s with bpm := m1 }
      (NodeObj.innerN ⟨[minInt64], [], InvalidPageId⟩ fi)
    (some al.1, al.2)

/-- Function `createLeafNodeFromPage` (lines 140-151): allocate a leaf whose
fields are parsed from the frame bytes; the parse error is ignored, leaving
the constructor's initial fields (no keys, invalid right sibling). -/
def createLeafNodeFromPageSt (s : TreeSt) (fi : Nat) : Nat × TreeSt :=
  let d := (leafFromBytes (s.bpm.frames.getD fi default).data).getD ⟨[], [], InvalidPageId⟩
  allocNode s (NodeObj.leafN d fi)

/-- Function `createInnerNodeFromPage` (src/unnamed/part_000 lines 86-97):
allocate an inner node parsed from the frame bytes; the parse error is
ignored, leaving the Go zero values (no keys, no children, right sibling
0 — the `math.MinInt` initializer is commented out in the source). -/
def createInnerNodeFromPageSt (s : TreeSt) (fi : Nat) : Nat × TreeSt :=
  let d := (innerFromBytes (s.bpm.frames.getD fi default).data).getD ⟨[], [], 0⟩
  allocNode s (NodeObj.innerN d fi)

/-- Method `BPlusTreeMetadata.removeAncestor` (src/unnamed/part_005 lines
142-150): return the top of the `seen` stack; the source truncates with
`seen[:n]` where `n = len(seen)`, so nothing is actually removed. -/
def removeAncestorSt (s : TreeSt) : Option Nat × TreeSt :=
  match s.seen.getLast? with
  | some v => (some v, { s with seen := s.seen.take s.seen.length })
  | none => (none, s)

/-- Method `leafNode.get` (src/index/leafnode.go lines 269-278): binary
search; on a hit return the record id at the found position (in-range
whenever keys and record ids are parallel, as the Go indexing assumes). -/
def leafNodeGet (d : LeafNodeData) (key : Int) : Int × Bool :=
  let pf := goBinarySearch d.keys key
  if pf.2 = false then (-1, false)
  else (d.recordIds.getD pf.1 0, true)

/-- Method `leafNode.search` (lines 280-286): whether the key is present. -/
def leafNodeSearch (d : LeafNodeData) (k : Int) : Bool :=
  (goBinarySearch d.keys k).2

/-- Method `innerNode.insert` (src/unnamed/part_000 lines 188-234). Case 0:
a nil receiver returns false. Case 1: a node with room sorted-inserts the
pair and serializes. Case 2: a full node allocates a new page frame and a
new inner node (whose own freshly allocated frame is immediately replaced by
the first one, as in the source), sorted-inserts, splits at
`mid = len(keys)/2` — keys and children right of `mid` move to the new node,
the key at `mid` is pushed to the parent popped from the ancestor stack, the
left node keeps the prefixes and links to the new page — then serializes
both halves. The parent insert's result is discarded. A leaf object behind
the pointer cannot occur in Go's typed heap and returns false. -/
def innerInsertSt : Nat → TreeSt → Option Nat → Int → Int → Bool × TreeSt
  | 0, s, _, _, _ => (false, s)
  | _, s, none, _, _ => (false, s)
  | fuel + 1, s, some ref, key, pageId =>
    match getNode s ref with
    | NodeObj.leafN _ _ => (false, s)
    | NodeObj.innerN d fi =>
      if 1 ≤ innerGetMaxSize - innerGetSize d then
        let kc := innerSInsert d.keys d.children key (toUint64 pageId)
        let s1 := setNode s ref (NodeObj.innerN ⟨kc.1, kc.2, d.rightSibling⟩ fi)
        (true, nodeToBytesSt s1 ref)
      else
        match s.bpm.GetNewPageFrame with
        | (none, m1) => (false, { s with bpm := m1 })
        | (some npf, m1) =>
          match newInnerNodeSt { s with bpm := m1 } with
          | (none, s2) => (false, s2)
          | (some newRef, s2) =>
            let s3 := setNode s2 newRef (NodeObj.innerN ⟨[minInt64], [], InvalidPageId⟩ npf)
            let kc := innerSInsert d.keys d.children key (toUint64 pageId)
            let mid := kc.1.length / 2
            let s4 := setNode s3 newRef
              (NodeObj.innerN ⟨kc.1.drop (mid + 1), kc.2.drop (mid + 1), NonExistentSiblingLink⟩ npf)
            let splitKey := kc.1.getD mid 0
            let newPagePid := (s4.bpm.frames.getD npf default).meta.pageId
            let s5 := setNode s4 ref
              (NodeObj.innerN ⟨kc.1.take mid, kc.2.take mid, newPagePid⟩ fi)
            let pr := removeAncestorSt s5
            let s6 := (innerInsertSt fuel pr.2 pr.1 splitKey newPagePid).2
            let s7 := nodeToBytesSt s6 newRef
            (true, nodeToBytesSt s7 ref)

/-- Method `leafNode.insert` (src/index/leafnode.go lines 199-254). A nil
receiver returns false. A leaf with room sorted-inserts and serializes,
returning true (also for an already-present key, whose insertSort is a
no-op). A full leaf allocates a new right leaf, sorted-inserts, splits at
`mid = len(keys)/2` — the suffix from `mid` moves to the new leaf, the
prefix stays, the old leaf's right sibling is set to the new leaf's page id,
both are serialized and marked dirty — and pushes the new leaf's first key
and page id into the parent popped from the ancestor stack (result
discarded), returning true. -/
def leafInsertSt (fuel : Nat) (s : TreeSt) : Option Nat → Int → Int → Bool × TreeSt
  | none, _, _ => (false, s)
  | some ref, k, rid =>
    match getNode s ref with
    | NodeObj.innerN _ _ => (false, s)
    | NodeObj.leafN d fi =>
      if 1 ≤ leafGetMaxSize - leafGetSize d then
        let kr := leafInsertSort d.keys d.recordIds k rid
        let s1 := setNode s ref (NodeObj.leafN ⟨kr.1, kr.2, d.rightSibling⟩ fi)
        (true, nodeToBytesSt s1 ref)
      else
        match newLeafNodeSt s with
        | (none, s1) => (false, s1)
        | (some newRef, s1) =>
          let kr := leafInsertSort d.keys d.recordIds k rid
          let mid := kr.1.length / 2
          let nfi := nodeFrameIdx (getNode s1 newRef)
          let s2 := setNode s1 newRef
            (NodeObj.leafN ⟨kr.1.drop mid, kr.2.drop mid, InvalidPageId⟩ nfi)
          let s3 := setFrameDirty (nodeToBytesSt s2 newRef) nfi
          let newPid := (s3.bpm.frames.getD nfi default).meta.pageId
          let s4 := setNode s3 ref (NodeObj.leafN ⟨kr.1.take mid, kr.2.take mid, newPid⟩ fi)
          let s5 := setFrameDirty (nodeToBytesSt s4 ref) fi
          let pr := removeAncestorSt s5
          let s6 := (innerInsertSt fuel pr.2 pr.1 ((kr.1.drop mid).headD 0) newPid).2
          (true, s6)

/-- Method `innerNode.get` (src/unnamed/part_000 lines 130-144): binary
search the keys, take the child left of the insertion position, load that
page, deserialize it into the receiver with the inner-node `fromBytes`
(mutating the object in place; an error — in particular a leaf-typed child
page — yields `(-1, false)`), and recurse on the mutated receiver. -/
def innerGetSt : Nat → TreeSt → Nat → Int → (Int × Bool) × TreeSt
  | 0, s, _, _ => ((-1, false), s)
  | fuel + 1, s, ref, key =>
    match getNode s ref with
    | NodeObj.leafN d _ => (leafNodeGet d key, s)
    | NodeObj.innerN d fi =>
      let pos := (goBinarySearch d.keys key).1
      let childPageId := toSigned64 (d.children.getD (pos - 1) 0)
      match s.bpm.GetPage childPageId with
      | (none, m1) => ((-1, false), { s with bpm := m1 })
      | (some cfi, m1) =>
        let s1 := { s with bpm := m1 }
        match innerFromBytes (s1.bpm.frames.getD cfi default).data with
        | none => ((-1, false), s1)
        | some d2 => innerGetSt fuel (setNode s1 ref (NodeObj.innerN d2 fi)) ref key

/-- Loop of `innerNode.search` (src/unnamed/part_000 lines 158-183). While
the current frame holds an inner page: append the receiver `n` (not the
current node) to the `seen` stack, binary-search the current node's keys,
choose `children[pos]` when `pos = 0` or `k ≥ keys[pos]` (with `pos` in
range) and `children[pos-1]` otherwise, load that page (the source ignores
the error and would dereference nil on failure, modelled as `none`), and
materialize an inner node from it when it is an inner page. On reaching a
leaf page, materialize a leaf from the frame and report whether it holds
`k`. -/
def innerSearchLoop : Nat → TreeSt → Nat → Nat → Nat → Int → Option (Nat × Bool) × TreeSt
  | 0, s, _, _, _, _ => (none, s)
  | fuel + 1, s, selfRef, currRef, currFi, k =>
    if framePageType s currFi = 0 then
      let s1 := { s with seen := s.seen ++ [selfRef] }
      let d := match getNode s1 currRef with
               | NodeObj.innerN d _ => d
               | NodeObj.leafN _ _ => ⟨[], [], 0⟩
      let pos := (goBinarySearch d.keys k).1
      let nextPageId : Int :=
        if pos = 0 ∨ (pos < d.keys.length ∧ d.keys.getD pos 0 ≤ k) then
          toSigned64 (d.children.getD pos 0)
        else toSigned64 (d.children.getD (pos - 1) 0)
      match s1.bpm.GetPage nextPageId with
      | (none, m1) => (none, { s1 with bpm := m1 })
      | (some nfi, m1) =>
        let s2 := { s1 with bpm := m1 }
        if framePageType s2 nfi = 0 then
          let cr := createInnerNodeFromPageSt s2 nfi
          innerSearchLoop fuel cr.2 selfRef cr.1 nfi k
        else innerSearchLoop fuel s2 selfRef currRef nfi k
    else
      let cl := createLeafNodeFromPageSt s currFi
      let found := match getNode cl.2 cl.1 with
                   | NodeObj.leafN d _ => leafNodeSearch d k
                   | NodeObj.innerN _ _ => false
      (some (cl.1, found), cl.2)

/-- Method `innerNode.search` entry point: the loop starts at the receiver
and its frame. -/
def innerSearchSt (fuel : Nat) (s : TreeSt) (ref : Nat) (k : Int) :
    Option (Nat × Bool) × TreeSt :=
  innerSearchLoop fuel s ref ref (nodeFrameIdx (getNode s ref)) k

/-- Descent half of `bPlusTree.Insert` (src/unnamed/part_005 lines 105-117),
reached when the root is not a full leaf: a leaf root takes the insert
directly; an inner root is searched for the target leaf (the found flag is
discarded) and the insert goes there. A search failure stands for the Go
panic on the nil frame. -/
def treeInsertLower (fuel : Nat) (s : TreeSt) (k v : Int) : Bool × TreeSt :=
  if nodeIsLeaf (getNode s s.rootRef) then leafInsertSt fuel s (some s.rootRef) k v
  else
    match innerSearchSt fuel s s.rootRef k with
    | (none, s1) => (false, s1)
    | (some lf, s1) => leafInsertSt fuel s1 (some lf.1) k v

/-- Method `bPlusTree.Insert` (src/unnamed/part_005 lines 74-117). A full
leaf root first grows the tree: a new inner root is allocated (failure
stands for the Go nil dereference), pushed on the ancestor stack, its first
child set to the old root's page id, the tree metadata is repointed, and the
insert proceeds into the old leaf root. A full inner root falls through
(the source's case 2 is empty) to the same descent as a non-full root. -/
def treeInsertSt (fuel : Nat) (s : TreeSt) (k v : Int) : Bool × TreeSt :=
  let root := getNode s s.rootRef
  if nodeGetMaxSize root ≤ nodeGetSize root then
    if nodeIsLeaf root then
      match newInnerNodeSt s with
      | (none, s1) => (false, s1)
      | (some newRootRef, s1) =>
        let s2 := { s1 with seen := s1.seen ++ [newRootRef] }
        let lpid := (s2.bpm.frames.getD (nodeFrameIdx root) default).meta.pageId
        let s3 := match getNode s2 newRootRef with
                  | NodeObj.innerN d nfi =>
                    setNode s2 newRootRef (NodeObj.innerN ⟨d.keys, d.children ++ [toUint64 lpid], d.rightSibling⟩ nfi)
                  | NodeObj.leafN _ _ => s2
        let nrfi := nodeFrameIdx (getNode s3 newRootRef)
        let s4 := { s3 with
          rootRef := newRootRef,
          rootPageId := (s3.bpm.frames.getD nrfi default).meta.pageId }
        leafInsertSt fuel s4 (some s.rootRef) k v
    else treeInsertLower fuel s k v
  else treeInsertLower fuel s k v

/-- Method `bPlusTree.Get` (src/unnamed/part_005 lines 120-122): dispatch
`get` on the root object. -/
def treeGetSt (fuel : Nat) (s : TreeSt) (k : Int) : (Int × Bool) × TreeSt :=
  match getNode s s.rootRef with
  | NodeObj.leafN d _ => (leafNodeGet d k, s)
  | NodeObj.innerN _ _ => innerGetSt fuel s s.rootRef k

/-- Function `NewBPlusTree` (src/unnamed/part_005 lines 53-71) applied to
fresh `NewBPlusTreeMetadata` (root page id invalid, empty ancestor stack)
and a fresh buffer pool of `poolSize` frames over an empty file: the
restore branch is dead and a new leaf root is created and installed via
`updateRoot`; `none` stands for a failed root allocation. -/
def newBPlusTreeSt (poolSize : Nat) : Option TreeSt :=
  let s0 : TreeSt := ⟨NewBufferPoolManager poolSize [], [], 0, InvalidPageId, []⟩
  match newLeafNodeSt s0 with
  | (none, _) => none
  | (some ref, s1) =>
    some { s1 with
      rootRef := ref,
      rootPageId := (s1.bpm.frames.getD (nodeFrameIdx (getNode s1 ref)) default).meta.pageId }

/-- Run `Insert` over a list of pairs, collecting the returned flags. -/
def insertList (fuel : Nat) : TreeSt → List (Int × Int) → List Bool × TreeSt
  | s, [] => ([], s)
  | s, (k, v) :: rest =>
    let r := treeInsertSt fuel s k v
    let rr := insertList fuel r.2 rest
    (r.1 :: rr.1, rr.2)

/-! ## Operation language for the pinning discipline (claim C10) -/

/-- Whether the replacer currently marks frame `f` evictable (a missing
entry carries the Go zero value, not evictable). -/
def evictableIn (r : LruKReplacer) (f : Nat) : Bool :=
  ((storeFind r.metadataStore f).getD default).isEvictable

/-- Pin/evictability well-formedness: every frame the replacer marks
evictable has pin count zero. The initial pool satisfies it (nothing is
tracked) and every pool operation preserves it. -/
def PinWF (m : BufferPoolManager) : Prop :=
  ∀ f : Nat, evictableIn m.replacer f = true →
    (m.frames.getD f default).meta.pinCount = 0

/-- The buffer-pool operations a caller can invoke. -/
inductive PoolOp
  | newPageOp
  | getPageOp (pid : Int)
  | getNewPageFrameOp
  | pinOp (f : Nat)
  | unpinOp (f : Nat)
  | flushPageOp (pid : Int)

/-- Run one pool operation, keeping only the state. -/
def runPoolOp : PoolOp → BufferPoolManager → BufferPoolManager
  | PoolOp.newPageOp, m => m.newPage.2
  | PoolOp.getPageOp pid, m => (m.GetPage pid).2
  | PoolOp.getNewPageFrameOp, m => m.GetNewPageFrame.2
  | PoolOp.pinOp f, m => m.Pin f
  | PoolOp.unpinOp f, m => m.Unpin f
  | PoolOp.flushPageOp pid, m => (m.FlushPage pid).2

/-- One pool transition respects the pinning discipline: no frame becomes
evictable, and — from a well-formed start — pin counts never decrease and
well-formedness is preserved. -/
def PoolStep (m m2 : BufferPoolManager) : Prop :=
  (∀ g : Nat, evictableIn m2.replacer g = true →
      evictableIn m.replacer g = true) ∧
  (PinWF m →
    (∀ i : Nat, (m.frames.getD i default).meta.pinCount ≤
        (m2.frames.getD i default).meta.pinCount) ∧
      PinWF m2)

/-- A one-frame pool whose only frame is pinned once (by `Pin`), so not
evictable. -/
def c10Pool : BufferPoolManager := (NewBufferPoolManager 1 []).Pin 0

/-- A tree whose root is an empty leaf on frame 0 of a fresh one-frame
pool (nothing is tracked by the replacer). -/
def c10Tree : TreeSt :=
  ⟨NewBufferPoolManager 1 [], [NodeObj.leafN ⟨[], [], InvalidPageId⟩ 0], 0, 0, []⟩

/-- A tree state with an inner parent (ref 0, frame 3, one child) on the
ancestor stack and a full root leaf (ref 1, frame 2, keys 101..104) over a
fresh four-frame pool. -/
def c3Tree : TreeSt :=
  ⟨NewBufferPoolManager 4 [],
   [NodeObj.innerN ⟨[minInt64], [0], -1⟩ 3,
    NodeObj.leafN ⟨[101, 102, 103, 104], [1, 2, 3, 4], -1⟩ 2],
   1, 1, [0]⟩

/-! ## Theorems settling the claims -/

/-- C4: for every node, serializing with `toBytes` and deserializing with
`fromBytes` was claimed to restore the keys, the child page ids and the
right-sibling. The inner-node pair violates this: `toBytes` writes the
children big-endian at offset `12 + 8 * n`, while `fromBytes` reads them
little-endian at offset `12 + 16 * n` (past the written region, so it reads
the zeroed tail), and the right sibling is read back without the `int32`
sign conversion, so `-1` comes back as `4294967295`. Evaluating the code at
the sample node shows both losses. -/
theorem inner_roundtrip_loses_children_and_sibling :
    (innerToBytes c4InnerSample (zeroPage pageSize)).bind innerFromBytes =
      some ⟨[minInt64, 103], [0, 0], 4294967295⟩ ∧
    c4InnerSample.children = [5, 7] ∧ c4InnerSample.rightSibling = -1 ∧
    ¬([0, 0] = ([5, 7] : List Nat)) ∧ ¬((4294967295 : Int) = -1) := by
  exact ⟨by decide, rfl, rfl, by decide, by decide⟩

/-- Go `int64` subtraction agrees with exact subtraction when the result fits
in the `int64` range. -/
theorem int64Sub_eq_sub (a b : Int) (h1 : -(2 ^ 63) ≤ a - b) (h2 : a - b < 2 ^ 63) :
    int64Sub a b = a - b := by
  unfold int64Sub toSigned64
  split
  all_goals omega

/-- C6 counterexample: the claim says the backward k-distance of an evictable
frame with at least `k` history entries is `history[last] - history[last-k+1]`
(the span of the last `k` accesses). For `k = 2` and history `[0, 10]` that
span is `10 - 0 = 10`, but `getBackwardKDistance` computes
`history[n-1] - history[k-1] = 10 - 10 = 0`. -/
theorem backward_k_distance_not_span_of_last_k :
    (c6Replacer.getBackwardKDistance 0).1 = 0 ∧
    (([0, 10] : List Int).getD 1 0 - ([0, 10] : List Int).getD 0 0) = 10 ∧
    ¬((0 : Int) = 10) := by
  decide

/-- C6 amended: for every tracked evictable frame the distance is
`math.MaxInt` (standing for +inf) when the history has fewer than `k`
entries, and otherwise `history[last] - history[k-1]` — the elapsed time from
the k-th oldest access overall to the most recent one, not the span of the
last `k` accesses. Timestamps are `UnixMilli` values, so they are
non-negative and far below `2 ^ 63`, which rules out `int64` wrap-around. -/
theorem getBackwardKDistance_is_inf_or_from_kth_access (r : LruKReplacer)
    (f : Nat) (m : LruKFrameAccessMetadata)
    (hm : storeFind r.metadataStore f = some m) (he : m.isEvictable = true)
    (hrange : ∀ t ∈ m.history, 0 ≤ t ∧ t < 2 ^ 63) :
    r.getBackwardKDistance f =
      (if m.history.length < r.k then maxInt64
       else m.history.getD (m.history.length - 1) 0 -
         m.history.getD (r.k - 1) 0, true) := by
  have hb : ∀ i : Nat, 0 ≤ m.history.getD i 0 ∧ m.history.getD i 0 < 2 ^ 63 := by
    intro i
    rw [List.getD_eq_getElem?_getD]
    cases hx : m.history[i]? with
    | none => simp
    | some v =>
      obtain ⟨hlt, rfl⟩ := List.getElem?_eq_some.mp hx
      simpa using hrange _ (List.getElem_mem hlt)
  unfold LruKReplacer.getBackwardKDistance
  rw [hm]
  simp only [Option.getD_some, he, if_true]
  by_cases hk : r.k ≤ m.history.length
  · rw [if_pos hk, if_neg (by omega)]
    have h1 := hb (m.history.length - 1)
    have h2 := hb (r.k - 1)
    rw [int64Sub_eq_sub _ _ (by omega) (by omega)]
  · rw [if_neg hk, if_pos (by omega)]

/-- Closed witness for the amended C6 theorem at the concrete replacer
`c6Replacer`. -/
theorem getBackwardKDistance_is_inf_or_from_kth_access_witness :
    c6Replacer.getBackwardKDistance 0 = (0, true) := by
  have h := getBackwardKDistance_is_inf_or_from_kth_access c6Replacer 0
    ⟨[0, 10], true⟩ (by decide) (by decide) (by decide)
  simpa using h

/-- C5: the claim (and the doc comment on `evict`) promises that whenever at
least one evictable frame is tracked, `evict` returns the evictable frame
with the largest backward k-distance. With exactly one tracked evictable
frame, `size = 1`, so the scan's early-break condition
`countInf >= size / 2` holds immediately (`1 / 2 = 0`), no frame is ever
examined, and `evict` fails with the cannot-evict error, leaving the state
unchanged — instead of returning frame 0. -/
theorem evict_fails_with_single_evictable_frame :
    (storeFind c5Replacer.metadataStore 0).map (fun m => m.isEvictable) = some true ∧
    c5Replacer.size = 1 ∧
    c5Replacer.evict = ((-1, some LruEvictErr.cannotEvict), c5Replacer) := by
  decide

/-- C7: the claim (and the doc comment on `evict`) says every successful
eviction removes the victim's tracked state and decrements `size`. When the
victim is selected through the finite-distance path of
`hasLargestKInterval`, `evict` returns it without calling `cleanup`: here it
returns frame 0 yet the store still contains frame 0's metadata, the order
list still contains it, and `size` is still 2. -/
theorem evict_success_leaves_state_untouched :
    c7Replacer.evict = ((0, none), c7Replacer) ∧
    c7Replacer.size = 2 ∧
    (storeFind c7Replacer.metadataStore 0).isSome = true ∧
    c7Replacer.lru.contains 0 = true := by
  decide

/-- C9 counterexample: the claim says a read at or beyond end-of-file leaves
the destination buffer zero-filled for the missing tail. Reading page 0 of
an empty file into a buffer holding stale bytes succeeds but leaves the
stale bytes in place: `ReadPage` never zeroes anything. -/
theorem readPage_at_eof_keeps_stale_bytes :
    (DefaultDiskManagerReadPage false [] 0 c9Buf).2 = none ∧
    (DefaultDiskManagerReadPage false [] 0 c9Buf).1.byteAt 0 = 7 ∧
    ¬(7 = 0) := by
  decide

/-- C9 amended: for every read whose offset lies at or beyond the file's end,
`ReadPage` returns success and leaves the destination buffer unchanged (so
the missing tail is zero-filled exactly when the caller supplied a
zero-initialized buffer), and any other I/O error makes `ReadPage` fail with
`ErrorReadFromDisk`. -/
theorem readPage_at_eof_succeeds_and_buffer_unchanged (file : List Nat)
    (pageId : Int) (buf : PageBuf) (h0 : 0 ≤ pageId)
    (heof : (file.length : Int) ≤ pageId * (pageSize : Int)) :
    (DefaultDiskManagerReadPage false file pageId buf).2 = none ∧
    (∀ i, (DefaultDiskManagerReadPage false file pageId buf).1.byteAt i = buf.byteAt i) ∧
    DefaultDiskManagerReadPage true file pageId buf = (buf, some DiskErr.readFromDisk) := by
  have hq : 0 ≤ pageId * (pageSize : Int) :=
    mul_nonneg h0 (by norm_num [pageSize])
  have hcond : ¬((false : Bool) = true ∨ pageId * (pageSize : Int) < 0) := by
    push_neg
    exact ⟨Bool.false_ne_true, by omega⟩
  have hn : min buf.len (file.length - (pageId * (pageSize : Int)).toNat) = 0 := by
    omega
  refine ⟨?_, ?_, ?_⟩
  · simp only [DefaultDiskManagerReadPage, if_neg hcond]
  · intro i
    simp only [DefaultDiskManagerReadPage, if_neg hcond, hn]
    simp
  · simp only [DefaultDiskManagerReadPage]
    rw [if_pos (Or.inl (by simp))]

/-- Closed witness for the amended C9 theorem: reading page 1 of an empty
file succeeds and leaves the stale buffer byte in place. -/
theorem readPage_at_eof_succeeds_and_buffer_unchanged_witness :
    (DefaultDiskManagerReadPage false [] 1 c9Buf).2 = none ∧
    (DefaultDiskManagerReadPage false [] 1 c9Buf).1.byteAt 3 = c9Buf.byteAt 3 := by
  have h := readPage_at_eof_succeeds_and_buffer_unchanged [] 1 c9Buf
    (by norm_num) (by norm_num [pageSize])
  exact ⟨h.1, h.2.1 3⟩

/-- C8: the claim says the resident map page-id to frame-index stays
bijective under any sequence of operations. `getPageFrame`'s free-frame
branch reads `freeFrames[0]` without removing it from the free list (unlike
the parallel code in `newPage`), so two successive `GetPage` calls for the
non-resident pages 5 and 7 on a fresh two-frame pool bind both pages to
frame 0 while both remain resident — the map is not injective. -/
theorem getPage_free_frame_breaks_bijection :
    pageMapFind c8Pool.pageToFrame 5 = some 0 ∧
    pageMapFind c8Pool.pageToFrame 7 = some 0 ∧
    ¬((5 : Int) = 7) ∧
    c8Pool.freeFrames = [0, 1] := by
  refine ⟨?_, ?_, by decide, ?_⟩ <;> rfl

/-- C1: the claim says that after `Insert(k, v)` returns true for a fresh
key, `Get(k)` returns `(v, true)` in every reachable tree state, including
after the root has become an inner node. Inserting the five fresh keys
101..105 into a fresh tree (fan-out 8, so a leaf holds 4 pairs) makes every
`Insert` return true and grows an inner root, after which `Get` fails for
every key: `innerNode.get` deserializes the child page with the inner-node
`fromBytes`, which rejects the leaf-typed child page and returns
`(-1, false)`. -/
theorem insert_then_get_fails_after_root_split :
    ((newBPlusTreeSt 16).map (fun s0 =>
      let ir := insertList 20 s0 [(101, 1), (102, 2), (103, 3), (104, 4), (105, 5)]
      (ir.1, (treeGetSt 20 ir.2 105).1, (treeGetSt 20 ir.2 101).1))) =
      some ([true, true, true, true, true], (-1, false), (-1, false)) := by
  rfl

/-- C2: the claim says inserting an existing key returns false and leaves
the mapping unchanged. On a fresh tree, `Insert(1, 100)` returns true and a
second `Insert(1, 999)` also returns true — `leafNode.insert`'s non-full
branch returns true unconditionally even though `insertSort` was a no-op,
contradicting the claim, the spec and the method's own doc comment. The
mapping itself is unchanged: `Get(1)` still returns `(100, true)`. -/
theorem duplicate_insert_returns_true_and_keeps_value :
    ((newBPlusTreeSt 16).map (fun s0 =>
      let r1 := treeInsertSt 20 s0 1 100
      let r2 := treeInsertSt 20 r1.2 1 999
      (r1.1, r2.1, (treeGetSt 20 r2.2 1).1))) = some (true, true, (100, true)) := by
  rfl

/-- Reading back the position just written in a list. -/
theorem getD_set_eq {α : Type} (l : List α) (i : Nat) (a d : α) (h : i < l.length) :
    (l.set i a).getD i d = a := by
  simp [List.getD_eq_getElem?_getD, List.getElem?_set_self, h]

/-- Writing one position of a list leaves the others unchanged. -/
theorem getD_set_ne {α : Type} (l : List α) (i j : Nat) (a d : α) (h : j ≠ i) :
    (l.set i a).getD j d = l.getD j d := by
  simp [List.getD_eq_getElem?_getD, List.getElem?_set_ne (Ne.symm h)]

/-- Reading inside the left part of an appended list. -/
theorem getD_append_left {α : Type} (l l2 : List α) (i : Nat) (d : α)
    (h : i < l.length) : (l ++ l2).getD i d = l.getD i d := by
  simp [List.getD_eq_getElem?_getD, List.getElem?_append_left h]

/-- Reading the element just appended at the end of a list. -/
theorem getD_concat_length {α : Type} (l : List α) (a d : α) :
    (l ++ [a]).getD l.length d = a := by
  simp [List.getD_eq_getElem?_getD, List.getElem?_concat_length]

/-- A successful `goBinarySearch` means the key is present. -/
theorem goBinarySearch_found_mem (xs : List Int) (k : Int)
    (h : (goBinarySearch xs k).2 = true) : k ∈ xs := by
  unfold goBinarySearch at h
  simp only [Bool.and_eq_true, decide_eq_true_eq] at h
  obtain ⟨h1, h2⟩ := h
  rw [List.getD_eq_getElem?_getD, List.getElem?_eq_getElem h1] at h2
  simp only [Option.getD_some] at h2
  rw [← h2]
  exact List.getElem_mem h1

/-- `goBinarySearch` does not report an absent key as found. -/
theorem goBinarySearch_not_found (xs : List Int) (k : Int) (h : k ∉ xs) :
    (goBinarySearch xs k).2 = false := by
  cases hf : (goBinarySearch xs k).2 with
  | false => rfl
  | true => exact absurd (goBinarySearch_found_mem xs k hf) h

/-- Inserting a fresh key at its binary-search position keeps a strictly
ascending key list strictly ascending. -/
theorem chain'_insertIdx_search (k : Int) :
    ∀ xs : List Int, xs.Chain' (· < ·) → k ∉ xs →
      (xs.insertIdx (xs.findIdx fun x => decide (k ≤ x)) k).Chain' (· < ·) := by
  intro xs
  induction xs with
  | nil => intro _ _; simp
  | cons x xs ih =>
    intro hch hmem
    rw [List.findIdx_cons]
    by_cases hkx : k ≤ x
    · have hkx2 : k < x := lt_of_le_of_ne hkx (fun he => hmem (by simp [he]))
      simp only [decide_eq_true hkx, cond_true, List.insertIdx_zero]
      exact List.chain'_cons.2 ⟨hkx2, hch⟩
    · have hch2 := (List.chain'_cons'.1 hch).2
      have ih2 := ih hch2 (fun hm => hmem (List.mem_cons_of_mem _ hm))
      simp only [decide_eq_false hkx, cond_false, List.insertIdx_succ_cons]
      refine List.chain'_cons'.2 ⟨?_, ih2⟩
      intro y hy
      cases xs with
      | nil =>
        simp only [List.findIdx_nil, List.insertIdx_zero, List.head?_cons,
          Option.mem_def, Option.some.injEq] at hy
        omega
      | cons z zs =>
        rw [List.findIdx_cons] at hy
        by_cases hkz : k ≤ z
        · simp only [decide_eq_true hkz, cond_true, List.insertIdx_zero,
            List.head?_cons, Option.mem_def, Option.some.injEq] at hy
          omega
        · simp only [decide_eq_false hkz, cond_false, List.insertIdx_succ_cons,
            List.head?_cons, Option.mem_def, Option.some.injEq] at hy
          have hxz : x < z := (List.chain'_cons.1 hch).1
          omega

/-- The head of a strictly ascending list is its minimum. -/
theorem chain'_head_min (l : List Int) (hch : l.Chain' (· < ·)) :
    ∀ x ∈ l, l.headD 0 ≤ x := by
  cases l with
  | nil => intro x hx; cases hx
  | cons a as =>
    intro x hx
    rw [List.chain'_iff_pairwise] at hch
    rcases List.mem_cons.1 hx with rfl | hxs
    · simp
    · have := (List.pairwise_cons.1 hch).1 x hxs
      simp only [List.headD_cons]
      omega

/-- Dropping a prefix of a strictly ascending list keeps it strictly
ascending. -/
theorem chain'_drop (l : List Int) (n : Nat) (h : l.Chain' (· < ·)) :
    (l.drop n).Chain' (· < ·) := by
  rw [List.chain'_iff_pairwise] at h ⊢
  exact List.Pairwise.sublist (List.drop_sublist n l) h

/-- Inserting a binding into the page map makes it immediately visible
(map-branch auxiliary). -/
theorem pageMapFind_map_put (l : List (Int × Nat)) (p : Int) (i : Nat)
    (hs : (l.find? (fun x => x.1 == p)).isSome) :
    pageMapFind (l.map (fun x => if x.1 == p then (p, i) else x)) p = some i := by
  induction l with
  | nil => simp at hs
  | cons a l ih =>
    by_cases hap : (a.1 == p) = true
    · unfold pageMapFind
      rw [List.map_cons, if_pos hap, List.find?_cons_of_pos _ (by simp)]
      rfl
    · unfold pageMapFind at ih ⊢
      rw [List.map_cons, if_neg hap]
      have hrw : List.find? (fun x => x.1 == p)
          (a :: l.map (fun x => if x.1 == p then (p, i) else x)) =
          List.find? (fun x => x.1 == p)
            (l.map (fun x => if x.1 == p then (p, i) else x)) :=
        List.find?_cons_of_neg _ hap
      have hrw2 : List.find? (fun x => x.1 == p) (a :: l) =
          List.find? (fun x => x.1 == p) l := List.find?_cons_of_neg _ hap
      rw [hrw2] at hs
      rw [hrw]
      exact ih hs

/-- Go map assignment to the page map is immediately visible. -/
theorem pageMapFind_put (l : List (Int × Nat)) (p : Int) (i : Nat) :
    pageMapFind (pageMapPut l p i) p = some i := by
  unfold pageMapPut
  by_cases hs : (l.find? (fun x => x.1 == p)).isSome
  · rw [if_pos hs]
    exact pageMapFind_map_put l p i hs
  · rw [if_neg hs]
    unfold pageMapFind
    rw [List.find?_append, Option.not_isSome_iff_eq_none.mp hs]
    rw [List.find?_cons_of_pos _ (by simp)]
    rfl

/-- A frame update that keeps the page id keeps every read of it. -/
theorem updateFrame_getD_pageId (m : BufferPoolManager) (i : Nat)
    (g : Frame → Frame) (j : Nat)
    (hg : ∀ fr, (g fr).meta.pageId = fr.meta.pageId) :
    ((updateFrame m i g).frames.getD j default).meta.pageId =
      (m.frames.getD j default).meta.pageId := by
  unfold updateFrame
  by_cases hij : j = i
  · subst hij
    by_cases hlt : j < m.frames.length
    · rw [getD_set_eq _ _ _ _ hlt, hg]
    · rw [List.set_eq_of_length_le (by omega)]
  · rw [getD_set_ne _ _ _ _ _ hij]

/-- `updateFrame` keeps the frame count. -/
theorem updateFrame_length (m : BufferPoolManager) (i : Nat) (g : Frame → Frame) :
    (updateFrame m i g).frames.length = m.frames.length := by
  simp [updateFrame, List.length_set]

/-- `GetNewPageFrame` with free frame `h` in bounds returns `h` pinned, with
the fresh page id (the old `nextPageId`) stamped on it. -/
theorem getNewPageFrame_free (m : BufferPoolManager) (h : Nat) (rest : List Nat)
    (hff : m.freeFrames = h :: rest) (hlen : h < m.frames.length) :
    ∃ m2, m.GetNewPageFrame = (some h, m2) ∧
      (m2.frames.getD h default).meta.pageId = m.nextPageId ∧
      m2.frames.length = m.frames.length := by
  have hnp : m.newPage = (m.nextPageId,
      updateFrame
        { m with
            nextPageId := m.nextPageId + 1
            freeFrames := rest
            pageToFrame := pageMapPut m.pageToFrame m.nextPageId h } h
        (fun fr => { fr with meta := { fr.meta with pageId := m.nextPageId } })) := by
    unfold BufferPoolManager.newPage
    dsimp only
    rw [hff]
  obtain ⟨M1, hM1⟩ : ∃ M1, m.newPage = (m.nextPageId, M1) := ⟨_, hnp⟩
  have hM12 : M1 = updateFrame
      { m with
          nextPageId := m.nextPageId + 1
          freeFrames := rest
          pageToFrame := pageMapPut m.pageToFrame m.nextPageId h } h
      (fun fr => { fr with meta := { fr.meta with pageId := m.nextPageId } }) := by
    have h2 := congrArg Prod.snd (hM1.symm.trans hnp)
    exact h2
  have hM1pt : M1.pageToFrame = pageMapPut m.pageToFrame m.nextPageId h := by
    rw [hM12]
    rfl
  have hM1pid : (M1.frames.getD h default).meta.pageId = m.nextPageId := by
    rw [hM12]
    unfold updateFrame
    dsimp only
    rw [getD_set_eq _ _ _ _ hlen]
  have hM1len : M1.frames.length = m.frames.length := by
    rw [hM12, updateFrame_length]
  have hget2 : M1.GetPage m.nextPageId = (some h, M1.Pin h) := by
    unfold BufferPoolManager.GetPage BufferPoolManager.getPageFrame
    rw [hM1pt, pageMapFind_put]
  refine ⟨M1.Pin h, ?_, ?_, ?_⟩
  · unfold BufferPoolManager.GetNewPageFrame
    rw [hM1]
    exact hget2
  · unfold BufferPoolManager.Pin
    dsimp only
    exact (updateFrame_getD_pageId M1 h
      (fun fr => { fr with meta := { fr.meta with pinCount := fr.meta.pinCount + 1 } })
      h (fun fr => rfl)).trans hM1pid
  · unfold BufferPoolManager.Pin
    dsimp only
    rw [updateFrame_length, hM1len]

/-- `newLeafNode` with free frame `h` in bounds allocates the node object at
the end of the heap, bound to `h`, with the fresh page id stamped on `h`. -/
theorem newLeafNodeSt_free (s : TreeSt) (h : Nat) (rest : List Nat)
    (hff : s.bpm.freeFrames = h :: rest) (hlen : h < s.bpm.frames.length) :
    ∃ bp2, newLeafNodeSt s = (some s.nodes.length,
        { s with
            bpm := bp2
            nodes := s.nodes ++ [NodeObj.leafN ⟨[], [], InvalidPageId⟩ h] }) ∧
      (bp2.frames.getD h default).meta.pageId = s.bpm.nextPageId ∧
      bp2.frames.length = s.bpm.frames.length := by
  obtain ⟨m2, he, hp, hl⟩ := getNewPageFrame_free s.bpm h rest hff hlen
  refine ⟨m2, ?_, hp, hl⟩
  unfold newLeafNodeSt
  rw [he]
  rfl

/-- Serialization touches only frame bytes: the node heap, the ancestor
stack, the root pointer and the root page id are unchanged. -/
theorem nodeToBytesSt_proj (s : TreeSt) (r : Nat) :
    (nodeToBytesSt s r).nodes = s.nodes ∧ (nodeToBytesSt s r).seen = s.seen ∧
      (nodeToBytesSt s r).rootRef = s.rootRef ∧
      (nodeToBytesSt s r).rootPageId = s.rootPageId := by
  unfold nodeToBytesSt
  rcases getNode s r with d | d
  all_goals dsimp only
  · rcases leafToBytes d (s.bpm.frames.getD _ default).data <;>
      exact ⟨rfl, rfl, rfl, rfl⟩
  · rcases innerToBytes d (s.bpm.frames.getD _ default).data <;>
      exact ⟨rfl, rfl, rfl, rfl⟩

/-- Serialization keeps every frame's page id and the frame count. -/
theorem nodeToBytesSt_pageId (s : TreeSt) (r j : Nat) :
    (((nodeToBytesSt s r).bpm.frames.getD j default)).meta.pageId =
      (s.bpm.frames.getD j default).meta.pageId ∧
    (nodeToBytesSt s r).bpm.frames.length = s.bpm.frames.length := by
  unfold nodeToBytesSt
  rcases getNode s r with d | d
  all_goals dsimp only
  · rcases leafToBytes d (s.bpm.frames.getD _ default).data with _ | b
    · exact ⟨rfl, rfl⟩
    · exact ⟨updateFrame_getD_pageId _ _ _ _ (fun fr => rfl), updateFrame_length _ _ _⟩
  · rcases innerToBytes d (s.bpm.frames.getD _ default).data with _ | b
    · exact ⟨rfl, rfl⟩
    · exact ⟨updateFrame_getD_pageId _ _ _ _ (fun fr => rfl), updateFrame_length _ _ _⟩

/-- Marking a frame dirty keeps the heap, the stack, every page id and the
frame count. -/
theorem setFrameDirty_proj (s : TreeSt) (fi j : Nat) :
    (setFrameDirty s fi).nodes = s.nodes ∧ (setFrameDirty s fi).seen = s.seen ∧
      ((setFrameDirty s fi).bpm.frames.getD j default).meta.pageId =
        (s.bpm.frames.getD j default).meta.pageId ∧
      (setFrameDirty s fi).bpm.frames.length = s.bpm.frames.length := by
  exact ⟨rfl, rfl, updateFrame_getD_pageId _ _ _ _ (fun fr => rfl),
    updateFrame_length _ _ _⟩

/-- Projection corollary for simp. -/
theorem nodeToBytesSt_nodes (s : TreeSt) (r : Nat) :
    (nodeToBytesSt s r).nodes = s.nodes := (nodeToBytesSt_proj s r).1

/-- Projection corollary for simp. -/
theorem nodeToBytesSt_seen (s : TreeSt) (r : Nat) :
    (nodeToBytesSt s r).seen = s.seen := (nodeToBytesSt_proj s r).2.1

/-- Page ids survive serialization. -/
theorem nodeToBytesSt_getD_pageId (s : TreeSt) (r j : Nat) :
    (((nodeToBytesSt s r).bpm.frames.getD j default)).meta.pageId =
      (s.bpm.frames.getD j default).meta.pageId := (nodeToBytesSt_pageId s r j).1

/-- The dirty-flag update keeps the heap. -/
theorem setFrameDirty_nodes (s : TreeSt) (fi : Nat) :
    (setFrameDirty s fi).nodes = s.nodes := rfl

/-- The dirty-flag update keeps the ancestor stack. -/
theorem setFrameDirty_seen (s : TreeSt) (fi : Nat) :
    (setFrameDirty s fi).seen = s.seen := rfl

/-- Page ids survive the dirty-flag update. -/
theorem setFrameDirty_getD_pageId (s : TreeSt) (fi j : Nat) :
    ((setFrameDirty s fi).bpm.frames.getD j default).meta.pageId =
      (s.bpm.frames.getD j default).meta.pageId := (setFrameDirty_proj s fi j).2.2.1

/-- Reading each of three distinct written positions in a heap extended by
one object. -/
theorem getD_set_set_set {α : Type} (A : List α) (L1 L2 P2 d : α)
    (n ref pref : Nat) (hA : A.length = n + 1) (hrefLt : ref < n)
    (hprefLt : pref < n) (hne : pref ≠ ref) :
    ((((A.set n L1).set ref L2).set pref P2).getD ref d = L2) ∧
    ((((A.set n L1).set ref L2).set pref P2).getD n d = L1) ∧
    ((((A.set n L1).set ref L2).set pref P2).getD pref d = P2) := by
  have h1 : ((A.set n L1).set ref L2).length = n + 1 := by
    simp [List.length_set, hA]
  have h0 : (A.set n L1).length = n + 1 := by simp [List.length_set, hA]
  refine ⟨?_, ?_, ?_⟩
  · rw [getD_set_ne _ _ _ _ _ (Ne.symm hne), getD_set_eq _ _ _ _ (by omega)]
  · rw [getD_set_ne _ _ _ _ _ (by omega), getD_set_ne _ _ _ _ _ (by omega),
      getD_set_eq _ _ _ _ (by omega)]
  · rw [getD_set_eq _ _ _ _ (by omega)]

/-- C3: inserting a fresh key into a full leaf (4 pairs, the hardcoded
maximum) first inserts the pair into the sorted sequence `ks2, rs2` (now 5
entries) and splits: the left half `take 2` stays in the original leaf
object, the right half `drop 2` — which starts at the 1-indexed middle
position `(5+1)/2 = 3`, i.e. includes the middle entry — moves to the newly
allocated right leaf bound to the free frame `h`, the original leaf's right
sibling becomes the new leaf's page id (the pool's next page id), and the
key pushed into the (non-full) parent from the ancestor stack is the head
of the right half: the smallest key of the new right leaf, which remains in
that leaf (copy-up). -/
theorem leaf_split_moves_right_half_and_copies_up (fuel : Nat) (s : TreeSt)
    (ref h : Nat) (rest : List Nat) (ks rs : List Int) (sib : Int) (fi : Nat)
    (k v : Int) (pref : Nat) (kp : List Int) (cp : List Nat) (psib : Int)
    (pfi : Nat)
    (h1 : getNode s ref = NodeObj.leafN ⟨ks, rs, sib⟩ fi)
    (h3 : ks.length = 4) (h4 : rs.length = 4)
    (h5 : ks.Chain' (· < ·)) (h6 : k ∉ ks)
    (hff : s.bpm.freeFrames = h :: rest) (hlen : h < s.bpm.frames.length)
    (h9 : s.seen.getLast? = some pref)
    (h10 : getNode s pref = NodeObj.innerN ⟨kp, cp, psib⟩ pfi)
    (h11 : innerGetSize ⟨kp, cp, psib⟩ < innerGetMaxSize)
    (h12 : (ks.insertIdx (goBinarySearch ks k).1 k).getD 2 0 ∉ kp) :
    (leafInsertSt (fuel + 1) s (some ref) k v).1 = true ∧
    (ks.insertIdx (goBinarySearch ks k).1 k).length = 5 ∧
    (5 + 1) / 2 - 1 = 2 ∧
    getNode (leafInsertSt (fuel + 1) s (some ref) k v).2 ref =
      NodeObj.leafN ⟨(ks.insertIdx (goBinarySearch ks k).1 k).take 2,
        (rs.insertIdx (goBinarySearch ks k).1 v).take 2, s.bpm.nextPageId⟩ fi ∧
    getNode (leafInsertSt (fuel + 1) s (some ref) k v).2 s.nodes.length =
      NodeObj.leafN ⟨(ks.insertIdx (goBinarySearch ks k).1 k).drop 2,
        (rs.insertIdx (goBinarySearch ks k).1 v).drop 2, InvalidPageId⟩ h ∧
    ((ks.insertIdx (goBinarySearch ks k).1 k).drop 2).headD 0 =
      (ks.insertIdx (goBinarySearch ks k).1 k).getD 2 0 ∧
    (ks.insertIdx (goBinarySearch ks k).1 k).getD 2 0 ∈
      (ks.insertIdx (goBinarySearch ks k).1 k).drop 2 ∧
    (∀ x ∈ (ks.insertIdx (goBinarySearch ks k).1 k).drop 2,
      (ks.insertIdx (goBinarySearch ks k).1 k).getD 2 0 ≤ x) ∧
    getNode (leafInsertSt (fuel + 1) s (some ref) k v).2 pref =
      NodeObj.innerN
        ⟨kp.insertIdx (goBinarySearch kp ((ks.insertIdx (goBinarySearch ks k).1 k).getD 2 0)).1
            ((ks.insertIdx (goBinarySearch ks k).1 k).getD 2 0),
          cp.insertIdx (goBinarySearch kp ((ks.insertIdx (goBinarySearch ks k).1 k).getD 2 0)).1
            (toUint64 s.bpm.nextPageId), psib⟩ pfi := by
  have hfound : (goBinarySearch ks k).2 = false := goBinarySearch_not_found ks k h6
  have hposle : (goBinarySearch ks k).1 ≤ ks.length := List.findIdx_le_length _
  have hlenk : (ks.insertIdx (goBinarySearch ks k).1 k).length = 5 := by
    rw [List.length_insertIdx _ _ hposle, h3]
  have hlenr : (rs.insertIdx (goBinarySearch ks k).1 v).length = 5 := by
    rw [List.length_insertIdx _ _ (by omega), h4]
  have hsorted : (ks.insertIdx (goBinarySearch ks k).1 k).Chain' (· < ·) :=
    chain'_insertIdx_search k ks h5 h6
  have hrefLt : ref < s.nodes.length := by
    by_contra hc
    rw [getNode, List.getD_eq_default _ _ (by omega)] at h1
    rw [show (default : NodeObj) = NodeObj.leafN ⟨[], [], 0⟩ 0 from rfl] at h1
    have hd := (NodeObj.leafN.inj h1).1
    have hks := (LeafNodeData.mk.inj hd).1
    rw [← hks] at h3
    simp at h3
  have hprefLt : pref < s.nodes.length := by
    by_contra hc
    rw [getNode, List.getD_eq_default _ _ (by omega)] at h10
    rw [show (default : NodeObj) = NodeObj.leafN ⟨[], [], 0⟩ 0 from rfl] at h10
    cases h10
  have hprne : pref ≠ ref := fun he => by
    rw [he, h1] at h10
    cases h10
  have hsplitD : ((ks.insertIdx (goBinarySearch ks k).1 k).drop 2).headD 0 =
      (ks.insertIdx (goBinarySearch ks k).1 k).getD 2 0 := by
    rw [List.headD_eq_head?, List.head?_drop, List.getD_eq_getElem?_getD]
  have hl2 : ((ks.insertIdx (goBinarySearch ks k).1 k).drop 2).length = 3 := by
    rw [List.length_drop, hlenk]
  have hsplitMem : (ks.insertIdx (goBinarySearch ks k).1 k).getD 2 0 ∈
      (ks.insertIdx (goBinarySearch ks k).1 k).drop 2 := by
    rw [← hsplitD]
    cases hdd : (ks.insertIdx (goBinarySearch ks k).1 k).drop 2 with
    | nil => rw [hdd] at hl2; simp at hl2
    | cons a t => simp
  have hsplitMin : ∀ x ∈ (ks.insertIdx (goBinarySearch ks k).1 k).drop 2,
      (ks.insertIdx (goBinarySearch ks k).1 k).getD 2 0 ≤ x := by
    intro x hx
    rw [← hsplitD]
    exact chain'_head_min _ (chain'_drop _ 2 hsorted) x hx
  obtain ⟨bp2, hnl, hpid2, hlen3⟩ := newLeafNodeSt_free s h rest hff hlen
  have hfull : ¬(1 ≤ leafGetMaxSize - leafGetSize ⟨ks, rs, sib⟩) := by
    simp [leafGetSize, leafGetMaxSize, h3, h4]
  have hsort : leafInsertSort ks rs k v =
      (ks.insertIdx (goBinarySearch ks k).1 k, rs.insertIdx (goBinarySearch ks k).1 v) := by
    unfold leafInsertSort
    simp [hfound]
  unfold leafInsertSt
  dsimp only
  rw [h1]
  dsimp only
  rw [if_neg hfull]
  rw [hnl]
  dsimp only
  rw [hsort]
  dsimp only
  have hG1 : getNode
      { bpm := bp2
        nodes := s.nodes ++ [NodeObj.leafN ⟨[], [], InvalidPageId⟩ h]
        rootRef := s.rootRef
        rootPageId := s.rootPageId
        seen := s.seen } s.nodes.length = NodeObj.leafN ⟨[], [], InvalidPageId⟩ h :=
    getD_concat_length _ _ _
  rw [hG1]
  dsimp only [nodeFrameIdx, setNode]
  rw [hlenk]
  simp only [show (5 : Nat) / 2 = 2 from rfl]
  simp only [setFrameDirty_getD_pageId, nodeToBytesSt_getD_pageId]
  rw [hpid2]
  simp only [setFrameDirty_nodes, nodeToBytesSt_nodes, setFrameDirty_seen,
    nodeToBytesSt_seen]
  unfold removeAncestorSt
  simp only [setFrameDirty_seen, nodeToBytesSt_seen]
  rw [h9]
  dsimp only
  rw [List.take_length]
  have hL : (((s.nodes ++ [NodeObj.leafN ⟨[], [], InvalidPageId⟩ h]).set s.nodes.length
        (NodeObj.leafN ⟨List.drop 2 (List.insertIdx (goBinarySearch ks k).1 k ks),
          List.drop 2 (List.insertIdx (goBinarySearch ks k).1 v rs), InvalidPageId⟩ h)).set ref
        (NodeObj.leafN ⟨List.take 2 (List.insertIdx (goBinarySearch ks k).1 k ks),
          List.take 2 (List.insertIdx (goBinarySearch ks k).1 v rs), s.bpm.nextPageId⟩ fi)).getD
      pref default = NodeObj.innerN ⟨kp, cp, psib⟩ pfi := by
    rw [getD_set_ne _ _ _ _ _ hprne, getD_set_ne _ _ _ _ _ (by omega),
      getD_append_left _ _ _ _ hprefLt]
    exact h10
  have hroom : 1 ≤ innerGetMaxSize - innerGetSize ⟨kp, cp, psib⟩ := by
    simp only [innerGetMaxSize, innerGetSize] at h11 ⊢
    omega
  rw [hsplitD]
  have hsins : innerSInsert kp cp ((List.insertIdx (goBinarySearch ks k).1 k ks).getD 2 0)
      (toUint64 s.bpm.nextPageId) =
      (kp.insertIdx (goBinarySearch kp ((List.insertIdx (goBinarySearch ks k).1 k ks).getD 2 0)).1
        ((List.insertIdx (goBinarySearch ks k).1 k ks).getD 2 0),
       cp.insertIdx (goBinarySearch kp ((List.insertIdx (goBinarySearch ks k).1 k ks).getD 2 0)).1
        (toUint64 s.bpm.nextPageId)) := by
    unfold innerSInsert
    dsimp only
    rw [goBinarySearch_not_found kp _ h12]
    rw [if_neg Bool.false_ne_true]
  unfold innerInsertSt
  dsimp only [getNode]
  simp only [setFrameDirty_nodes, nodeToBytesSt_nodes]
  rw [hL]
  dsimp only
  rw [if_pos hroom, hsins]
  dsimp only [setNode]
  have hfin := getD_set_set_set
    (s.nodes ++ [NodeObj.leafN ⟨[], [], InvalidPageId⟩ h])
    (NodeObj.leafN ⟨List.drop 2 (List.insertIdx (goBinarySearch ks k).1 k ks),
      List.drop 2 (List.insertIdx (goBinarySearch ks k).1 v rs), InvalidPageId⟩ h)
    (NodeObj.leafN ⟨List.take 2 (List.insertIdx (goBinarySearch ks k).1 k ks),
      List.take 2 (List.insertIdx (goBinarySearch ks k).1 v rs), s.bpm.nextPageId⟩ fi)
    (NodeObj.innerN
      ⟨List.insertIdx (goBinarySearch kp ((List.insertIdx (goBinarySearch ks k).1 k ks).getD 2 0)).1
          ((List.insertIdx (goBinarySearch ks k).1 k ks).getD 2 0) kp,
        List.insertIdx (goBinarySearch kp ((List.insertIdx (goBinarySearch ks k).1 k ks).getD 2 0)).1
          (toUint64 s.bpm.nextPageId) cp, psib⟩ pfi)
    default s.nodes.length ref pref (by simp) hrefLt hprefLt hprne
  refine ⟨trivial, trivial, trivial, ?_, ?_, trivial, hsplitMem, hsplitMin, ?_⟩
  · simp only [getNode, nodeToBytesSt_nodes]
    exact hfin.1
  · simp only [getNode, nodeToBytesSt_nodes]
    exact hfin.2.1
  · simp only [getNode, nodeToBytesSt_nodes]
    exact hfin.2.2


/-- Closed witness for the C3 split theorem: inserting the fresh key 105
with value 5 into the full leaf of `c3Tree` splits it exactly as described. -/
theorem leaf_split_moves_right_half_and_copies_up_witness :
    (leafInsertSt 1 c3Tree (some 1) 105 5).1 = true ∧
    getNode (leafInsertSt 1 c3Tree (some 1) 105 5).2 1 =
      NodeObj.leafN ⟨[101, 102], [1, 2], 0⟩ 2 ∧
    getNode (leafInsertSt 1 c3Tree (some 1) 105 5).2 2 =
      NodeObj.leafN ⟨[103, 104, 105], [3, 4, 5], InvalidPageId⟩ 0 ∧
    getNode (leafInsertSt 1 c3Tree (some 1) 105 5).2 0 =
      NodeObj.innerN ⟨[minInt64, 103], [0, 0], -1⟩ 3 := by
  have h := leaf_split_moves_right_half_and_copies_up 0 c3Tree 1 0 [1, 2, 3]
    [101, 102, 103, 104] [1, 2, 3, 4] (-1) 2 105 5 0 [minInt64] [0] (-1) 3
    rfl rfl rfl (by norm_num [List.chain'_cons, List.chain'_singleton])
    (by decide) rfl (by decide) rfl rfl (by decide) (by decide)
  exact ⟨h.1, h.2.2.2.1, h.2.2.2.2.1, h.2.2.2.2.2.2.2.2⟩


/-- One step of `List.find?` on a matching head. -/
theorem find_cons_pos {α : Type} (p : α → Bool) (a : α) (l : List α)
    (h : p a = true) : (a :: l).find? p = some a := by
  simp only [List.find?, h]

/-- One step of `List.find?` on a non-matching head. -/
theorem find_cons_neg {α : Type} (p : α → Bool) (a : α) (l : List α)
    (h : p a = false) : (a :: l).find? p = l.find? p := by
  simp only [List.find?, h]

/-- Go map assignment to the replacer store is immediately visible
(map-branch auxiliary). -/
theorem storeFind_map_put (l : List (Nat × LruKFrameAccessMetadata)) (f : Nat)
    (m : LruKFrameAccessMetadata)
    (hs : (l.find? (fun p => p.1 == f)).isSome) :
    storeFind (l.map (fun p => if p.1 == f then (f, m) else p)) f = some m := by
  induction l with
  | nil => simp at hs
  | cons a l ih =>
    by_cases hap : (a.1 == f) = true
    · unfold storeFind
      rw [List.map_cons, if_pos hap,
        find_cons_pos (fun p => p.1 == f) (f, m) _ (by simp)]
      rfl
    · have hap2 : (a.1 == f) = false := Bool.eq_false_iff.mpr hap
      unfold storeFind at ih ⊢
      rw [List.map_cons, if_neg hap,
        find_cons_neg (fun p => p.1 == f) a _ hap2]
      rw [find_cons_neg (fun p => p.1 == f) a _ hap2] at hs
      exact ih hs

/-- Go map assignment to the replacer store is immediately visible. -/
theorem storeFind_put_self (l : List (Nat × LruKFrameAccessMetadata)) (f : Nat)
    (m : LruKFrameAccessMetadata) :
    storeFind (storePut l f m) f = some m := by
  unfold storePut
  by_cases hs : (l.find? (fun p => p.1 == f)).isSome
  · rw [if_pos hs]
    exact storeFind_map_put l f m hs
  · rw [if_neg hs]
    unfold storeFind
    rw [List.find?_append, Option.not_isSome_iff_eq_none.mp hs]
    rw [find_cons_pos (fun p => p.1 == f) (f, m) _ (by simp)]
    rfl

/-- Replacing the binding of one key leaves the lookups of other keys
unchanged (map-branch auxiliary). -/
theorem storeFind_map_put_ne (l : List (Nat × LruKFrameAccessMetadata))
    (f g : Nat) (m : LruKFrameAccessMetadata) (h : g ≠ f) :
    (l.map (fun p => if p.1 == f then (f, m) else p)).find? (fun p => p.1 == g) =
      l.find? (fun p => p.1 == g) := by
  induction l with
  | nil => rfl
  | cons a l ih =>
    rw [List.map_cons]
    by_cases hap : (a.1 == f) = true
    · rw [if_pos hap]
      have haf : a.1 = f := by simpa using hap
      rw [find_cons_neg (fun p => p.1 == g) (f, m) _ (by simp [Ne.symm h]),
        find_cons_neg (fun p => p.1 == g) a _ (by simp [haf, Ne.symm h]), ih]
    · rw [if_neg hap]
      by_cases hag : (a.1 == g) = true
      · rw [find_cons_pos (fun p => p.1 == g) a _ hag,
          find_cons_pos (fun p => p.1 == g) a _ hag]
      · have hag2 : (a.1 == g) = false := Bool.eq_false_iff.mpr hag
        rw [find_cons_neg (fun p => p.1 == g) a _ hag2,
          find_cons_neg (fun p => p.1 == g) a _ hag2, ih]

/-- Go map assignment to the replacer store leaves other keys unchanged. -/
theorem storeFind_put_ne (l : List (Nat × LruKFrameAccessMetadata)) (f g : Nat)
    (m : LruKFrameAccessMetadata) (h : g ≠ f) :
    storeFind (storePut l f m) g = storeFind l g := by
  unfold storePut storeFind
  by_cases hs : (l.find? (fun p => p.1 == f)).isSome
  · rw [if_pos hs, storeFind_map_put_ne l f g m h]
  · rw [if_neg hs, List.find?_append]
    have h1 : (List.find? (fun p => p.1 == g) [(f, m)]) = none := by
      rw [find_cons_neg (fun p => p.1 == g) (f, m) _ (by simp [Ne.symm h])]
      rfl
    rw [h1]
    cases hfl : l.find? (fun p => p.1 == g) <;> rfl

/-- Filtering a key out of the store removes every binding of that key
(auxiliary). -/
theorem storeFind_erase_self_aux (l : List (Nat × LruKFrameAccessMetadata))
    (f : Nat) :
    (l.filter (fun p => p.1 != f)).find? (fun p => p.1 == f) = none := by
  induction l with
  | nil => rfl
  | cons a l ih =>
    rw [List.filter_cons]
    by_cases haf : a.1 = f
    · rw [if_neg (by simp [haf])]
      exact ih
    · rw [if_pos (by simp [haf])]
      rw [find_cons_neg (fun p => p.1 == f) a _ (by simp [haf])]
      exact ih

/-- Go map deletion from the replacer store removes the key. -/
theorem storeFind_erase_self (l : List (Nat × LruKFrameAccessMetadata))
    (f : Nat) : storeFind (storeErase l f) f = none := by
  unfold storeFind storeErase
  rw [storeFind_erase_self_aux]
  rfl

/-- Filtering a key out of the store leaves the lookups of other keys
unchanged (auxiliary). -/
theorem storeFind_erase_ne_aux (l : List (Nat × LruKFrameAccessMetadata))
    (f g : Nat) (h : g ≠ f) :
    (l.filter (fun p => p.1 != f)).find? (fun p => p.1 == g) =
      l.find? (fun p => p.1 == g) := by
  induction l with
  | nil => rfl
  | cons a l ih =>
    rw [List.filter_cons]
    by_cases haf : a.1 = f
    · rw [if_neg (by simp [haf])]
      rw [find_cons_neg (fun p => p.1 == g) a _ (by simp [haf, Ne.symm h])]
      exact ih
    · rw [if_pos (by simp [haf])]
      by_cases hag : (a.1 == g) = true
      · rw [find_cons_pos (fun p => p.1 == g) a _ hag,
          find_cons_pos (fun p => p.1 == g) a _ hag]
      · have hag2 : (a.1 == g) = false := Bool.eq_false_iff.mpr hag
        rw [find_cons_neg (fun p => p.1 == g) a _ hag2,
          find_cons_neg (fun p => p.1 == g) a _ hag2]
        exact ih

/-- Go map deletion from the replacer store leaves other keys unchanged. -/
theorem storeFind_erase_ne (l : List (Nat × LruKFrameAccessMetadata))
    (f g : Nat) (h : g ≠ f) :
    storeFind (storeErase l f) g = storeFind l g := by
  unfold storeFind storeErase
  rw [storeFind_erase_ne_aux l f g h]

/-- `recordAccess` never makes a frame evictable: a fresh entry starts
non-evictable and an existing entry keeps its flag. -/
theorem evictableIn_recordAccess (r : LruKReplacer) (f : Nat) (now : Int)
    (g : Nat) (h : evictableIn (r.recordAccess f now) g = true) :
    evictableIn r g = true := by
  unfold LruKReplacer.recordAccess at h
  unfold evictableIn at h ⊢
  by_cases hgf : g = f
  · subst hgf
    cases hm : storeFind r.metadataStore g with
    | some m =>
      rw [hm] at h
      dsimp only at h
      rw [storeFind_put_self] at h
      simp only [Option.getD_some] at h
      simp only [Option.getD_some]
      exact h
    | none =>
      rw [hm] at h
      dsimp only at h
      rw [storeFind_put_self] at h
      simp only [Option.getD_some] at h
      exact Bool.noConfusion h
  · cases hm : storeFind r.metadataStore f with
    | some m =>
      rw [hm] at h
      dsimp only at h
      rw [storeFind_put_ne _ _ _ _ hgf] at h
      exact h
    | none =>
      rw [hm] at h
      dsimp only at h
      rw [storeFind_put_ne _ _ _ _ hgf] at h
      exact h

/-- `setEvictable` on a different frame does not change a frame's
evictability. -/
theorem evictableIn_setEvictable_ne (r : LruKReplacer) (f g : Nat) (b : Bool)
    (hgf : g ≠ f) :
    evictableIn (r.setEvictable f b) g = evictableIn r g := by
  unfold LruKReplacer.setEvictable
  cases hm : storeFind r.metadataStore f with
  | none => rfl
  | some m =>
    dsimp only
    by_cases h1 : (m.isEvictable = true ∧ b = false)
    · rw [if_pos h1]
      unfold evictableIn
      dsimp only
      rw [storeFind_put_ne _ _ _ _ hgf]
    · rw [if_neg h1]
      by_cases h2 : (m.isEvictable = false ∧ b = true)
      · rw [if_pos h2]
        unfold evictableIn
        dsimp only
        rw [storeFind_put_ne _ _ _ _ hgf]
      · rw [if_neg h2]

/-- After `setEvictable f false` the frame `f` is not evictable. -/
theorem evictableIn_setEvictable_false_self (r : LruKReplacer) (f : Nat) :
    evictableIn (r.setEvictable f false) f = false := by
  unfold LruKReplacer.setEvictable
  cases hm : storeFind r.metadataStore f with
  | none =>
    unfold evictableIn
    rw [hm]
    rfl
  | some m =>
    dsimp only
    by_cases hev : m.isEvictable = true
    · rw [if_pos ⟨hev, rfl⟩]
      unfold evictableIn
      dsimp only
      rw [storeFind_put_self]
      rfl
    · rw [if_neg (fun hc => hev hc.1), if_neg (fun hc => Bool.noConfusion hc.2)]
      unfold evictableIn
      rw [hm]
      simp only [Option.getD_some]
      exact Bool.eq_false_iff.mpr hev

/-- `setEvictable _ false` never makes a frame evictable. -/
theorem evictableIn_setEvictable_false (r : LruKReplacer) (f g : Nat)
    (h : evictableIn (r.setEvictable f false) g = true) :
    evictableIn r g = true := by
  by_cases hgf : g = f
  · subst hgf
    rw [evictableIn_setEvictable_false_self] at h
    exact Bool.noConfusion h
  · rw [evictableIn_setEvictable_ne _ _ _ _ hgf] at h
    exact h

/-- `cleanup` never makes a frame evictable: it only erases state. -/
theorem evictableIn_cleanup (r : LruKReplacer) (f g : Nat)
    (h : evictableIn (r.cleanup f) g = true) : evictableIn r g = true := by
  unfold LruKReplacer.cleanup at h
  unfold evictableIn at h ⊢
  dsimp only at h
  by_cases hgf : g = f
  · subst hgf
    rw [storeFind_erase_self] at h
    exact Bool.noConfusion h
  · rw [storeFind_erase_ne _ _ _ hgf] at h
    exact h

/-- A backward k-distance reported with the ok flag comes from an evictable
frame. -/
theorem getBackwardKDistance_ok (r : LruKReplacer) (f : Nat)
    (h : (r.getBackwardKDistance f).2 = true) : evictableIn r f = true := by
  unfold LruKReplacer.getBackwardKDistance at h
  dsimp only at h
  unfold evictableIn
  by_cases hev : ((storeFind r.metadataStore f).getD default).isEvictable = true
  · exact hev
  · rw [if_neg hev] at h
    exact Bool.noConfusion h

/-- A backward k-distance reported without the ok flag is the Go `-1`. -/
theorem getBackwardKDistance_not_ok (r : LruKReplacer) (f : Nat)
    (h : (r.getBackwardKDistance f).2 = false) :
    (r.getBackwardKDistance f).1 = -1 := by
  unfold LruKReplacer.getBackwardKDistance at h ⊢
  dsimp only at h ⊢
  by_cases hev : ((storeFind r.metadataStore f).getD default).isEvictable = true
  · rw [if_pos hev] at h
    exact Bool.noConfusion h
  · rw [if_neg hev] at h ⊢

/-- Invariant of the `hasLargestKInterval` scan: the running best distance
stays at least `-1`, and whenever it is finite the recorded candidate is an
evictable frame. -/
theorem hasLargestKIntervalLoop_inv (r : LruKReplacer)
    (l : List (Nat × LruKFrameAccessMetadata)) :
    ∀ st : Int × Int × Int,
      -1 ≤ st.1 →
      (-1 < st.1 → ∃ f : Nat, st.2.1 = (f : Int) ∧ evictableIn r f = true) →
      (-1 ≤ (hasLargestKIntervalLoop r l st).1 ∧
        (-1 < (hasLargestKIntervalLoop r l st).1 →
          ∃ f : Nat, (hasLargestKIntervalLoop r l st).2.1 = (f : Int) ∧
            evictableIn r f = true)) := by
  induction l with
  | nil =>
    intro st h1 h2
    exact ⟨h1, h2⟩
  | cons a rest ih =>
    intro st h1 h2
    obtain ⟨f, md⟩ := a
    obtain ⟨longestK, frameId, countInf⟩ := st
    simp only [hasLargestKIntervalLoop]
    by_cases hbrk : r.size.tdiv 2 ≤ countInf
    · rw [if_pos hbrk]
      exact ⟨h1, h2⟩
    · rw [if_neg hbrk]
      by_cases hinf : ((r.getBackwardKDistance f).2 = true ∧
          (r.getBackwardKDistance f).1 = maxInt64)
      · rw [if_pos hinf]
        exact ih _ h1 h2
      · rw [if_neg hinf]
        by_cases hlt : longestK < (r.getBackwardKDistance f).1
        · rw [if_pos hlt]
          refine ih _ ?_ ?_
          · dsimp only at h1 ⊢
            omega
          · intro _
            dsimp only
            refine ⟨f, rfl, ?_⟩
            cases hok : (r.getBackwardKDistance f).2 with
            | true => exact getBackwardKDistance_ok r f hok
            | false =>
              have hval := getBackwardKDistance_not_ok r f hok
              dsimp only at h1
              omega
        · rw [if_neg hlt]
          exact ih _ h1 h2

/-- A successful `hasLargestKInterval` returns an evictable frame. -/
theorem hasLargestKInterval_evictable (r : LruKReplacer)
    (h : (r.hasLargestKInterval).2 = none) :
    ∃ f : Nat, (r.hasLargestKInterval).1 = (f : Int) ∧
      evictableIn r f = true := by
  unfold LruKReplacer.hasLargestKInterval at h ⊢
  dsimp only at h ⊢
  by_cases h1 : (0 < (hasLargestKIntervalLoop r r.metadataStore (-1, -1, 0)).2.2 ∧
      (hasLargestKIntervalLoop r r.metadataStore (-1, -1, 0)).2.2 ≤ r.size)
  · rw [if_pos h1] at h
    exact Option.noConfusion h
  · rw [if_neg h1] at h ⊢
    by_cases h2 : (-1 : Int) < (hasLargestKIntervalLoop r r.metadataStore (-1, -1, 0)).1
    · rw [if_pos h2]
      have hin := hasLargestKIntervalLoop_inv r r.metadataStore (-1, -1, 0)
        (by norm_num) (fun hc => absurd hc (by norm_num))
      obtain ⟨f, hf, hev⟩ := hin.2 h2
      exact ⟨f, hf, hev⟩
    · rw [if_neg h2] at h
      exact Option.noConfusion h

/-- A successful `getLRUFrame` returns an evictable frame. -/
theorem getLRUFrame_evictable (r : LruKReplacer)
    (h : (r.getLRUFrame).2 = none) :
    ∃ f : Nat, (r.getLRUFrame).1 = (f : Int) ∧ evictableIn r f = true := by
  unfold LruKReplacer.getLRUFrame at h ⊢
  cases hf : r.lru.find? (fun f =>
      let m := (storeFind r.metadataStore f).getD default
      m.isEvictable && decide (m.history.length < r.k)) with
  | none =>
    rw [hf] at h
    exact Option.noConfusion h
  | some f =>
    refine ⟨f, rfl, ?_⟩
    have hp := List.find?_some hf
    simp only [Bool.and_eq_true] at hp
    unfold evictableIn
    exact hp.1

/-- The replacer's `evict` never makes a frame evictable: either the state is
unchanged or a victim is cleaned up. -/
theorem replacerEvict_shrink (r : LruKReplacer) (g : Nat)
    (h : evictableIn (r.evict).2 g = true) : evictableIn r g = true := by
  unfold LruKReplacer.evict at h
  dsimp only at h
  cases hfe : (r.hasLargestKInterval).2 with
  | none =>
    rw [hfe] at h
    exact h
  | some e =>
    rw [hfe] at h
    cases e with
    | insufficientHistory =>
      cases hle : (r.getLRUFrame).2 with
      | none =>
        rw [hle] at h
        exact evictableIn_cleanup _ _ _ h
      | some e2 =>
        rw [hle] at h
        exact h
    | cannotEvict => exact h

/-- A successful `evict` of the replacer reports a frame that was evictable
in the starting state. -/
theorem replacerEvict_victim (r : LruKReplacer)
    (h : (r.evict).1.2 = none) :
    ∃ f : Nat, (r.evict).1.1 = (f : Int) ∧ evictableIn r f = true := by
  unfold LruKReplacer.evict at h ⊢
  dsimp only at h ⊢
  cases hfe : (r.hasLargestKInterval).2 with
  | none => exact hasLargestKInterval_evictable r hfe
  | some e =>
    rw [hfe] at h
    cases e with
    | insufficientHistory =>
      cases hle : (r.getLRUFrame).2 with
      | none => exact getLRUFrame_evictable r hle
      | some e2 =>
        rw [hle] at h
        exact Option.noConfusion h
    | cannotEvict => exact Option.noConfusion h

/-- The identity transition respects the pinning discipline. -/
theorem poolStep_refl (m : BufferPoolManager) : PoolStep m m :=
  ⟨fun _ h => h, fun hw => ⟨fun _ => Nat.le_refl _, hw⟩⟩

/-- Pool transitions compose. -/
theorem poolStep_trans {a b c : BufferPoolManager} (h1 : PoolStep a b)
    (h2 : PoolStep b c) : PoolStep a c :=
  ⟨fun g hg => h1.1 g (h2.1 g hg),
   fun hw =>
     ⟨fun i => Nat.le_trans ((h1.2 hw).1 i) ((h2.2 (h1.2 hw).2).1 i),
      (h2.2 (h1.2 hw).2).2⟩⟩

/-- A transition keeping every pin count and shrinking evictability respects
the pinning discipline. -/
theorem poolStep_of_eq_frames (m m2 : BufferPoolManager)
    (hf : ∀ j : Nat, (m2.frames.getD j default).meta.pinCount =
        (m.frames.getD j default).meta.pinCount)
    (hs : ∀ g : Nat, evictableIn m2.replacer g = true →
        evictableIn m.replacer g = true) :
    PoolStep m m2 := by
  refine ⟨hs, fun hw => ⟨fun i => (hf i).ge, fun g hg => ?_⟩⟩
  rw [hf g]
  exact hw g (hs g hg)

/-- A frame update that keeps a projection keeps every read of it. -/
theorem updateFrame_getD_proj {α : Type} (p : Frame → α) (m : BufferPoolManager)
    (i : Nat) (g : Frame → Frame) (hg : ∀ fr, p (g fr) = p fr) (j : Nat) :
    p ((updateFrame m i g).frames.getD j default) =
      p (m.frames.getD j default) := by
  unfold updateFrame
  by_cases hij : j = i
  · subst hij
    by_cases hlt : j < m.frames.length
    · rw [getD_set_eq _ _ _ _ hlt, hg]
    · rw [List.set_eq_of_length_le (by omega)]
  · rw [getD_set_ne _ _ _ _ _ hij]

/-- A frame update that can only raise the pin count never lowers any read
pin count. -/
theorem updateFrame_getD_le (m : BufferPoolManager) (i : Nat)
    (g : Frame → Frame) (hg : ∀ fr, fr.meta.pinCount ≤ (g fr).meta.pinCount)
    (j : Nat) :
    (m.frames.getD j default).meta.pinCount ≤
      ((updateFrame m i g).frames.getD j default).meta.pinCount := by
  unfold updateFrame
  by_cases hij : j = i
  · subst hij
    by_cases hlt : j < m.frames.length
    · rw [getD_set_eq _ _ _ _ hlt]
      exact hg _
    · rw [List.set_eq_of_length_le (by omega)]
  · rw [getD_set_ne _ _ _ _ _ hij]

/-- Reading a page into a frame buffer keeps every pin count. -/
theorem readIntoFrame_getD_pin (m : BufferPoolManager) (i : Nat) (pid : Int)
    (j : Nat) :
    ((readIntoFrame m i pid).frames.getD j default).meta.pinCount =
      (m.frames.getD j default).meta.pinCount := by
  unfold readIntoFrame
  exact updateFrame_getD_proj (fun fr => fr.meta.pinCount) m i
    (fun fr => { fr with data := (DefaultDiskManagerReadPage false m.file pid fr.data).1 })
    (fun fr => rfl) j

/-- `Pin` respects the pinning discipline: it raises one pin count and marks
that frame non-evictable. -/
theorem poolStep_Pin (m : BufferPoolManager) (f : Nat) :
    PoolStep m (m.Pin f) := by
  constructor
  · intro g hg
    exact evictableIn_recordAccess m.replacer f m.clock g
      (evictableIn_setEvictable_false (m.replacer.recordAccess f m.clock) f g hg)
  · intro hw
    constructor
    · intro i
      exact updateFrame_getD_le m f
        (fun fr => { fr with meta := { fr.meta with pinCount := fr.meta.pinCount + 1 } })
        (fun fr => Nat.le_succ _) i
    · intro g hg
      by_cases hgf : g = f
      · subst hgf
        have h2 : evictableIn ((m.replacer.recordAccess g m.clock).setEvictable g false) g = false :=
          evictableIn_setEvictable_false_self _ _
        exact Bool.noConfusion (h2.symm.trans hg)
      · have hgX : evictableIn ((m.replacer.recordAccess f m.clock).setEvictable f false) g = true := hg
        rw [evictableIn_setEvictable_ne _ _ _ _ hgf] at hgX
        have hg2 := evictableIn_recordAccess m.replacer f m.clock g hgX
        have h0 := hw g hg2
        have h3 : ((updateFrame m f (fun fr => { fr with meta := { fr.meta with pinCount := fr.meta.pinCount + 1 } })).frames.getD g default).meta.pinCount =
            (m.frames.getD g default).meta.pinCount := by
          unfold updateFrame
          rw [getD_set_ne _ _ _ _ _ hgf]
        exact h3.trans h0

/-- `FlushPage` keeps every pin count and the replacer state. -/
theorem flushPage_frames_pin (m : BufferPoolManager) (pid : Int) (j : Nat) :
    ((m.FlushPage pid).2.frames.getD j default).meta.pinCount =
      (m.frames.getD j default).meta.pinCount ∧
    (m.FlushPage pid).2.replacer = m.replacer := by
  unfold BufferPoolManager.FlushPage
  cases hpm : pageMapFind m.pageToFrame pid with
  | none => exact ⟨rfl, rfl⟩
  | some i =>
    dsimp only
    by_cases hd : (m.frames.getD i default).meta.isDirty = false
    · rw [if_pos hd]
      exact ⟨rfl, rfl⟩
    · rw [if_neg hd]
      cases hw : DefaultDiskManagerWritePage m.file pid (m.frames.getD i default).data with
      | mk file2 err =>
        cases err with
        | none =>
          dsimp only
          refine ⟨?_, rfl⟩
          exact updateFrame_getD_proj (fun fr => fr.meta.pinCount) m i
            (fun fr2 => { fr2 with meta := { fr2.meta with isDirty := false } })
            (fun fr => rfl) j
        | some e => exact ⟨rfl, rfl⟩

/-- `FlushPage` respects the pinning discipline. -/
theorem poolStep_FlushPage (m : BufferPoolManager) (pid : Int) :
    PoolStep m (m.FlushPage pid).2 := by
  refine poolStep_of_eq_frames _ _ (fun j => (flushPage_frames_pin m pid j).1) ?_
  intro g hg
  rw [(flushPage_frames_pin m pid 0).2] at hg
  exact hg

/-- The buffer pool's `evict` keeps every pin count, never makes a frame
evictable, and only picks victims the replacer marked evictable. -/
theorem evictFrame_spec (m : BufferPoolManager) :
    (∀ j : Nat, ((m.evictFrame).2.frames.getD j default).meta.pinCount =
        (m.frames.getD j default).meta.pinCount) ∧
    (∀ g : Nat, evictableIn (m.evictFrame).2.replacer g = true →
        evictableIn m.replacer g = true) ∧
    (∀ i : Nat, (m.evictFrame).1 = some i → evictableIn m.replacer i = true) := by
  unfold BufferPoolManager.evictFrame
  dsimp only
  cases hre : m.replacer.evict with
  | mk res r2 =>
    obtain ⟨vid, err⟩ := res
    dsimp only
    cases err with
    | some e =>
      refine ⟨fun j => rfl, ?_, fun i hi => Option.noConfusion hi⟩
      intro g hg
      have h2 := replacerEvict_shrink m.replacer g
      rw [hre] at h2
      exact h2 hg
    | none =>
      dsimp only
      have hshr : ∀ g : Nat, evictableIn r2 g = true →
          evictableIn m.replacer g = true := by
        intro g hg
        have h2 := replacerEvict_shrink m.replacer g
        rw [hre] at h2
        exact h2 hg
      obtain ⟨f, hfv, hfe⟩ : ∃ f : Nat, vid = (f : Int) ∧
          evictableIn m.replacer f = true := by
        have h2 := replacerEvict_victim m.replacer
        rw [hre] at h2
        exact h2 rfl
      refine ⟨?_, ?_, ?_⟩
      · intro j
        split
        · exact (flushPage_frames_pin _ _ j).1
        · exact (flushPage_frames_pin _ _ j).1
      · intro g hg
        split at hg
        · refine hshr g ?_
          rw [(flushPage_frames_pin _ _ 0).2] at hg
          exact hg
        · refine hshr g ?_
          rw [(flushPage_frames_pin _ _ 0).2] at hg
          exact hg
      · intro i hi
        split at hi
        · exact Option.noConfusion hi
        · have h2 : vid.toNat = i := Option.some.inj hi
          subst h2
          rw [hfv]
          simpa using hfe

/-- `newPage` respects the pinning discipline: a free frame is stamped
without touching pins; eviction resets only a frame the replacer marked
evictable, whose pin count is already zero in a well-formed pool. -/
theorem poolStep_newPage (m : BufferPoolManager) : PoolStep m (m.newPage).2 := by
  unfold BufferPoolManager.newPage
  dsimp only
  cases hff : m.freeFrames with
  | cons frameIdx rest =>
    dsimp only
    constructor
    · intro g hg
      exact hg
    · intro hw
      constructor
      · intro i
        refine le_of_eq ?_
        exact (updateFrame_getD_proj (fun fr => fr.meta.pinCount) _ frameIdx
          (fun fr => { fr with meta := { fr.meta with pageId := m.nextPageId } })
          (fun fr => rfl) i).symm
      · intro g hg
        refine Eq.trans ?_ (hw g hg)
        exact updateFrame_getD_proj (fun fr => fr.meta.pinCount) _ frameIdx
          (fun fr => { fr with meta := { fr.meta with pageId := m.nextPageId } })
          (fun fr => rfl) g
  | nil =>
    dsimp only
    have hspec := evictFrame_spec
      { m with
          nextPageId := m.nextPageId + 1
          freeFrames := [] }
    cases hev : BufferPoolManager.evictFrame
      { m with
          nextPageId := m.nextPageId + 1
          freeFrames := [] } with
    | mk ores m1 =>
      rw [hev] at hspec
      obtain ⟨hpin, hshr, hvic⟩ := hspec
      cases ores with
      | none =>
        exact ⟨fun g hg => hshr g hg,
          fun hw => ⟨fun i => (hpin i).ge,
            fun g hg => (hpin g).trans (hw g (hshr g hg))⟩⟩
      | some i =>
        dsimp only
        have hvic2 : evictableIn m.replacer i = true := hvic i rfl
        refine ⟨fun g hg => hshr g hg, ?_⟩
        intro hw
        have hpin0 : (m.frames.getD i default).meta.pinCount = 0 := hw i hvic2
        constructor
        · intro j
          by_cases hj : j = i
          · subst hj
            rw [hpin0]
            exact Nat.zero_le _
          · refine le_of_eq ?_
            have h2 : ((updateFrame m1 i
                (fun fr => ⟨⟨i, m.nextPageId, false, false, 0⟩, fr.data⟩)).frames.getD j default).meta.pinCount =
                (m1.frames.getD j default).meta.pinCount := by
              unfold updateFrame
              dsimp only
              rw [getD_set_ne _ _ _ _ _ hj]
            exact (hpin j).symm.trans h2.symm
        · intro g hg
          have hg2 : evictableIn m.replacer g = true := hshr g hg
          have h0 := hw g hg2
          by_cases hgi : g = i
          · rw [hgi]
            have h2 : ((updateFrame m1 i
                (fun fr => ⟨⟨i, m.nextPageId, false, false, 0⟩, fr.data⟩)).frames.getD i default).meta.pinCount = 0 := by
              unfold updateFrame
              dsimp only
              by_cases hlt : i < m1.frames.length
              · rw [getD_set_eq _ _ _ _ hlt]
              · rw [List.set_eq_of_length_le (by omega)]
                rw [List.getD_eq_default _ _ (by omega)]
                rfl
            exact h2
          · have h2 : ((updateFrame m1 i
                (fun fr => ⟨⟨i, m.nextPageId, false, false, 0⟩, fr.data⟩)).frames.getD g default).meta.pinCount =
                (m1.frames.getD g default).meta.pinCount := by
              unfold updateFrame
              dsimp only
              rw [getD_set_ne _ _ _ _ _ hgi]
            exact h2.trans ((hpin g).trans h0)

/-- `getPageFrame` respects the pinning discipline in each of its three
cases: resident page, free frame, and eviction. -/
theorem poolStep_getPageFrame (m : BufferPoolManager) (pid : Int) :
    PoolStep m (m.getPageFrame pid).2 := by
  unfold BufferPoolManager.getPageFrame
  cases hpm : pageMapFind m.pageToFrame pid with
  | some i => exact poolStep_refl m
  | none =>
    dsimp only
    cases hff : m.freeFrames with
    | cons i rest =>
      dsimp only
      refine ⟨fun g hg => hg, fun hw => ⟨?_, ?_⟩⟩
      · intro j
        refine le_of_eq ?_
        exact ((readIntoFrame_getD_pin _ i pid j).trans
          (updateFrame_getD_proj (fun fr => fr.meta.pinCount) _ i
            (fun fr => { fr with meta := { fr.meta with pageId := pid } })
            (fun fr => rfl) j)).symm
      · intro g hg
        have hg2 : evictableIn m.replacer g = true := hg
        refine Eq.trans ?_ (hw g hg2)
        exact (readIntoFrame_getD_pin _ i pid g).trans
          (updateFrame_getD_proj (fun fr => fr.meta.pinCount) _ i
            (fun fr => { fr with meta := { fr.meta with pageId := pid } })
            (fun fr => rfl) g)
    | nil =>
      dsimp only
      have hspec := evictFrame_spec m
      cases hev : m.evictFrame with
      | mk ores m1 =>
        rw [hev] at hspec
        obtain ⟨hpin, hshr, hvic⟩ := hspec
        cases ores with
        | none =>
          exact ⟨fun g hg => hshr g hg,
            fun hw => ⟨fun i => (hpin i).ge,
              fun g hg => (hpin g).trans (hw g (hshr g hg))⟩⟩
        | some i =>
          dsimp only
          have hvic2 : evictableIn m.replacer i = true := hvic i rfl
          refine ⟨fun g hg => hshr g hg, ?_⟩
          intro hw
          have hpin0 : (m.frames.getD i default).meta.pinCount = 0 := hw i hvic2
          constructor
          · intro j
            by_cases hj : j = i
            · subst hj
              rw [hpin0]
              exact Nat.zero_le _
            · refine le_of_eq ?_
              have h2 : ((updateFrame m1 i
                  (fun fr => ⟨⟨i, pid, false, false, 0⟩, fr.data⟩)).frames.getD j default).meta.pinCount =
                  (m1.frames.getD j default).meta.pinCount := by
                unfold updateFrame
                dsimp only
                rw [getD_set_ne _ _ _ _ _ hj]
              refine ((hpin j).symm.trans h2.symm).trans ?_
              exact (readIntoFrame_getD_pin _ i pid j).symm
          · intro g hg
            have hg2 : evictableIn m.replacer g = true := hshr g hg
            have h0 := hw g hg2
            by_cases hgi : g = i
            · rw [hgi]
              have h2 : ((updateFrame m1 i
                  (fun fr => ⟨⟨i, pid, false, false, 0⟩, fr.data⟩)).frames.getD i default).meta.pinCount = 0 := by
                unfold updateFrame
                dsimp only
                by_cases hlt : i < m1.frames.length
                · rw [getD_set_eq _ _ _ _ hlt]
                · rw [List.set_eq_of_length_le (by omega)]
                  rw [List.getD_eq_default _ _ (by omega)]
                  rfl
              refine Eq.trans ?_ h2
              exact readIntoFrame_getD_pin _ i pid i
            · have h2 : ((updateFrame m1 i
                  (fun fr => ⟨⟨i, pid, false, false, 0⟩, fr.data⟩)).frames.getD g default).meta.pinCount =
                  (m1.frames.getD g default).meta.pinCount := by
                unfold updateFrame
                dsimp only
                rw [getD_set_ne _ _ _ _ _ hgi]
              refine Eq.trans ?_ (h2.trans ((hpin g).trans h0))
              exact readIntoFrame_getD_pin _ i pid g

/-- `GetPage` respects the pinning discipline: fetch then pin. -/
theorem poolStep_GetPage (m : BufferPoolManager) (pid : Int) :
    PoolStep m (m.GetPage pid).2 := by
  unfold BufferPoolManager.GetPage
  have hs := poolStep_getPageFrame m pid
  cases hgp : m.getPageFrame pid with
  | mk o m1 =>
    rw [hgp] at hs
    cases o with
    | none => exact hs
    | some i =>
      dsimp only
      exact poolStep_trans hs (poolStep_Pin m1 i)

/-- `GetNewPageFrame` respects the pinning discipline. -/
theorem poolStep_GetNewPageFrame (m : BufferPoolManager) :
    PoolStep m m.GetNewPageFrame.2 := by
  unfold BufferPoolManager.GetNewPageFrame
  dsimp only
  exact poolStep_trans (poolStep_newPage m)
    (poolStep_GetPage (m.newPage).2 (m.newPage).1)

/-- `GetPage` transitions, phrased on the equation produced by a `match`. -/
theorem poolStep_GetPage_eq (m : BufferPoolManager) (pid : Int)
    (o : Option Nat) (m1 : BufferPoolManager) (h : m.GetPage pid = (o, m1)) :
    PoolStep m m1 := by
  have hs := poolStep_GetPage m pid
  rw [h] at hs
  exact hs

/-- `removeAncestor` never touches the buffer pool. -/
theorem removeAncestorSt_bpm (s : TreeSt) :
    (removeAncestorSt s).2.bpm = s.bpm := by
  unfold removeAncestorSt
  cases s.seen.getLast? <;> rfl

/-- Serialization respects the pinning discipline: it only replaces frame
bytes. -/
theorem poolStep_nodeToBytesSt (s : TreeSt) (r : Nat) :
    PoolStep s.bpm (nodeToBytesSt s r).bpm := by
  unfold nodeToBytesSt
  cases getNode s r with
  | leafN d fi =>
    dsimp only
    cases leafToBytes d (s.bpm.frames.getD fi default).data with
    | some b =>
      refine poolStep_of_eq_frames _ _ ?_ (fun g hg => hg)
      intro j
      unfold writeFrameData
      exact updateFrame_getD_proj (fun fr => fr.meta.pinCount) s.bpm fi
        (fun fr => { fr with data := b }) (fun fr => rfl) j
    | none => exact poolStep_refl _
  | innerN d fi =>
    dsimp only
    cases innerToBytes d (s.bpm.frames.getD fi default).data with
    | some b =>
      refine poolStep_of_eq_frames _ _ ?_ (fun g hg => hg)
      intro j
      unfold writeFrameData
      exact updateFrame_getD_proj (fun fr => fr.meta.pinCount) s.bpm fi
        (fun fr => { fr with data := b }) (fun fr => rfl) j
    | none => exact poolStep_refl _

/-- Marking a frame dirty respects the pinning discipline. -/
theorem poolStep_setFrameDirty (s : TreeSt) (fi : Nat) :
    PoolStep s.bpm (setFrameDirty s fi).bpm := by
  refine poolStep_of_eq_frames _ _ ?_ (fun g hg => hg)
  intro j
  exact updateFrame_getD_proj (fun fr => fr.meta.pinCount) s.bpm fi
    (fun fr => { fr with meta := { fr.meta with isDirty := true } })
    (fun fr => rfl) j

/-- `newLeafNode` respects the pinning discipline. -/
theorem poolStep_newLeafNodeSt (s : TreeSt) :
    PoolStep s.bpm (newLeafNodeSt s).2.bpm := by
  unfold newLeafNodeSt
  have h := poolStep_GetNewPageFrame s.bpm
  cases hg : s.bpm.GetNewPageFrame with
  | mk o m1 =>
    rw [hg] at h
    cases o with
    | none => exact h
    | some fi => exact h

/-- `newInnerNode` respects the pinning discipline. -/
theorem poolStep_newInnerNodeSt (s : TreeSt) :
    PoolStep s.bpm (newInnerNodeSt s).2.bpm := by
  unfold newInnerNodeSt
  have h := poolStep_GetNewPageFrame s.bpm
  cases hg : s.bpm.GetNewPageFrame with
  | mk o m1 =>
    rw [hg] at h
    cases o with
    | none => exact h
    | some fi => exact h

/-- `innerNode.insert` respects the pinning discipline at every fuel. -/
theorem innerInsertSt_poolStep (fuel : Nat) :
    ∀ (s : TreeSt) (oref : Option Nat) (k pid : Int) (b : BufferPoolManager),
      s.bpm = b → PoolStep b (innerInsertSt fuel s oref k pid).2.bpm := by
  induction fuel with
  | zero =>
    intro s oref k pid b hb
    subst hb
    cases oref <;> exact poolStep_refl _
  | succ fuel ih =>
    intro s oref k pid b hb
    subst hb
    cases oref with
    | none => exact poolStep_refl _
    | some ref =>
      cases hn : getNode s ref with
      | leafN d fi =>
        unfold innerInsertSt
        rw [hn]
        exact poolStep_refl _
      | innerN d fi =>
        unfold innerInsertSt
        rw [hn]
        dsimp only
        by_cases hroom : 1 ≤ innerGetMaxSize - innerGetSize d
        · rw [if_pos hroom]
          exact poolStep_nodeToBytesSt _ _
        · rw [if_neg hroom]
          have hs1 := poolStep_GetNewPageFrame s.bpm
          cases hg : s.bpm.GetNewPageFrame with
          | mk o m1 =>
            rw [hg] at hs1
            cases o with
            | none => exact hs1
            | some npf =>
              dsimp only
              have hs2 := poolStep_newInnerNodeSt { s with bpm := m1 }
              cases hg2 : newInnerNodeSt { s with bpm := m1 } with
              | mk o2 s2 =>
                rw [hg2] at hs2
                cases o2 with
                | none => exact poolStep_trans hs1 hs2
                | some newRef =>
                  dsimp only
                  refine poolStep_trans ?_ (poolStep_nodeToBytesSt _ _)
                  refine poolStep_trans ?_ (poolStep_nodeToBytesSt _ _)
                  refine poolStep_trans ?_ (ih _ _ _ _ _ (removeAncestorSt_bpm _))
                  exact poolStep_trans hs1 hs2

/-- `leafNode.insert` respects the pinning discipline. -/
theorem leafInsertSt_poolStep (fuel : Nat) (s : TreeSt) (oref : Option Nat)
    (k v : Int) (b : BufferPoolManager) (hb : s.bpm = b) :
    PoolStep b (leafInsertSt fuel s oref k v).2.bpm := by
  subst hb
  cases oref with
  | none => exact poolStep_refl _
  | some ref =>
    cases hn : getNode s ref with
    | innerN d fi =>
      unfold leafInsertSt
      dsimp only
      rw [hn]
      exact poolStep_refl _
    | leafN d fi =>
      unfold leafInsertSt
      dsimp only
      rw [hn]
      dsimp only
      by_cases hroom : 1 ≤ leafGetMaxSize - leafGetSize d
      · rw [if_pos hroom]
        exact poolStep_nodeToBytesSt _ _
      · rw [if_neg hroom]
        have hs1 := poolStep_newLeafNodeSt s
        cases hg : newLeafNodeSt s with
        | mk o s1 =>
          rw [hg] at hs1
          cases o with
          | none => exact hs1
          | some newRef =>
            dsimp only
            refine poolStep_trans ?_
              (innerInsertSt_poolStep fuel _ _ _ _ _ (removeAncestorSt_bpm _))
            refine poolStep_trans ?_ (poolStep_setFrameDirty _ _)
            refine poolStep_trans ?_ (poolStep_nodeToBytesSt _ _)
            refine poolStep_trans ?_ (poolStep_setFrameDirty _ _)
            refine poolStep_trans ?_ (poolStep_nodeToBytesSt _ _)
            exact hs1

/-- `innerNode.get` respects the pinning discipline at every fuel. -/
theorem innerGetSt_poolStep (fuel : Nat) :
    ∀ (s : TreeSt) (ref : Nat) (k : Int) (b : BufferPoolManager), s.bpm = b →
      PoolStep b (innerGetSt fuel s ref k).2.bpm := by
  induction fuel with
  | zero =>
    intro s ref k b hb
    subst hb
    exact poolStep_refl _
  | succ fuel ih =>
    intro s ref k b hb
    subst hb
    unfold innerGetSt
    cases hn : getNode s ref with
    | leafN d fi => exact poolStep_refl _
    | innerN d fi =>
      dsimp only
      split
      · rename_i m1 heq
        exact poolStep_GetPage_eq _ _ _ _ heq
      · rename_i cfi m1 heq
        have hs1 := poolStep_GetPage_eq _ _ _ _ heq
        split
        · exact hs1
        · exact poolStep_trans hs1 (ih _ _ _ _ rfl)

/-- The loop of `innerNode.search` respects the pinning discipline. -/
theorem innerSearchLoop_poolStep (fuel : Nat) :
    ∀ (s : TreeSt) (selfRef currRef currFi : Nat) (k : Int)
      (b : BufferPoolManager), s.bpm = b →
      PoolStep b (innerSearchLoop fuel s selfRef currRef currFi k).2.bpm := by
  induction fuel with
  | zero =>
    intro s selfRef currRef currFi k b hb
    subst hb
    exact poolStep_refl _
  | succ fuel ih =>
    intro s selfRef currRef currFi k b hb
    subst hb
    unfold innerSearchLoop
    by_cases hpt : framePageType s currFi = 0
    · rw [if_pos hpt]
      dsimp only
      split
      · rename_i m1 heq
        exact poolStep_GetPage_eq _ _ _ _ heq
      · rename_i nfi m1 heq
        have hs1 := poolStep_GetPage_eq _ _ _ _ heq
        split
        · exact poolStep_trans hs1 (ih _ _ _ _ _ _ rfl)
        · exact poolStep_trans hs1 (ih _ _ _ _ _ _ rfl)
    · rw [if_neg hpt]
      exact poolStep_refl _

/-- The descent half of `Insert` respects the pinning discipline. -/
theorem treeInsertLower_poolStep (fuel : Nat) (s : TreeSt) (k v : Int) :
    PoolStep s.bpm (treeInsertLower fuel s k v).2.bpm := by
  unfold treeInsertLower
  by_cases hleaf : nodeIsLeaf (getNode s s.rootRef) = true
  · rw [if_pos hleaf]
    exact leafInsertSt_poolStep fuel s _ k v _ rfl
  · rw [if_neg hleaf]
    unfold innerSearchSt
    have hsx := innerSearchLoop_poolStep fuel s s.rootRef s.rootRef
      (nodeFrameIdx (getNode s s.rootRef)) k s.bpm rfl
    cases hsl : innerSearchLoop fuel s s.rootRef s.rootRef
        (nodeFrameIdx (getNode s s.rootRef)) k with
    | mk o s1 =>
      rw [hsl] at hsx
      cases o with
      | none => exact hsx
      | some lf =>
        dsimp only
        exact poolStep_trans hsx (leafInsertSt_poolStep fuel s1 _ k v _ rfl)

/-- `bPlusTree.Insert` respects the pinning discipline. -/
theorem treeInsertSt_poolStep (fuel : Nat) (s : TreeSt) (k v : Int) :
    PoolStep s.bpm (treeInsertSt fuel s k v).2.bpm := by
  unfold treeInsertSt
  dsimp only
  by_cases hfull : nodeGetMaxSize (getNode s s.rootRef) ≤ nodeGetSize (getNode s s.rootRef)
  · rw [if_pos hfull]
    by_cases hleaf : nodeIsLeaf (getNode s s.rootRef) = true
    · rw [if_pos hleaf]
      have hs1 := poolStep_newInnerNodeSt s
      cases hg : newInnerNodeSt s with
      | mk o s1 =>
        rw [hg] at hs1
        cases o with
        | none => exact hs1
        | some newRootRef =>
          dsimp only
          refine poolStep_trans hs1 ?_
          cases hn3 : getNode { s1 with seen := s1.seen ++ [newRootRef] } newRootRef with
          | innerN d nfi => exact leafInsertSt_poolStep fuel _ _ k v _ rfl
          | leafN d2 f2 => exact leafInsertSt_poolStep fuel _ _ k v _ rfl
    · rw [if_neg hleaf]
      exact treeInsertLower_poolStep fuel s k v
  · rw [if_neg hfull]
    exact treeInsertLower_poolStep fuel s k v

/-- `bPlusTree.Get` respects the pinning discipline. -/
theorem treeGetSt_poolStep (fuel : Nat) (s : TreeSt) (k : Int) :
    PoolStep s.bpm (treeGetSt fuel s k).2.bpm := by
  unfold treeGetSt
  cases hn : getNode s s.rootRef with
  | leafN d fi => exact poolStep_refl _
  | innerN d fi => exact innerGetSt_poolStep fuel s s.rootRef k s.bpm rfl

/-- C10: the only buffer-pool operation that can turn a frame evictable is
`Unpin` — and then only for the unpinned frame itself, whose pin count has
reached zero — while `newPage`, `GetPage`, `GetNewPageFrame`, `Pin` and
`FlushPage` never do; `Pin` leaves its frame with pin count at least one;
and the B+Tree's `Insert` and `Get` never call `Unpin`, so across them
(starting from a pool where evictable frames are unpinned) no frame's pin
count ever decreases, no frame becomes evictable, and that well-formedness
is preserved — hence a frame the tree pinned keeps pin count ≥ 1 and stays
non-evictable. -/
theorem only_unpin_marks_evictable_and_tree_keeps_frames_pinned :
    (∀ (op : PoolOp) (m : BufferPoolManager) (g : Nat),
        evictableIn m.replacer g = false →
        evictableIn (runPoolOp op m).replacer g = true →
        op = PoolOp.unpinOp g ∧
          ((runPoolOp op m).frames.getD g default).meta.pinCount = 0) ∧
    (∀ (m : BufferPoolManager) (f : Nat), f < m.frames.length →
        1 ≤ ((m.Pin f).frames.getD f default).meta.pinCount) ∧
    (∀ (fuel : Nat) (s : TreeSt) (k v : Int),
        PoolStep s.bpm (treeInsertSt fuel s k v).2.bpm) ∧
    (∀ (fuel : Nat) (s : TreeSt) (k : Int),
        PoolStep s.bpm (treeGetSt fuel s k).2.bpm) := by
  refine ⟨?_, ?_, treeInsertSt_poolStep, treeGetSt_poolStep⟩
  · intro op m g h1 h2
    cases op with
    | newPageOp =>
      exact Bool.noConfusion (h1.symm.trans ((poolStep_newPage m).1 g h2))
    | getPageOp pid =>
      exact Bool.noConfusion (h1.symm.trans ((poolStep_GetPage m pid).1 g h2))
    | getNewPageFrameOp =>
      exact Bool.noConfusion (h1.symm.trans ((poolStep_GetNewPageFrame m).1 g h2))
    | pinOp f =>
      exact Bool.noConfusion (h1.symm.trans ((poolStep_Pin m f).1 g h2))
    | flushPageOp pid =>
      exact Bool.noConfusion (h1.symm.trans ((poolStep_FlushPage m pid).1 g h2))
    | unpinOp f =>
      by_cases hp0 : (m.frames.getD f default).meta.pinCount = 0
      · have h2X : evictableIn m.replacer g = true := by
          have h2a : evictableIn (m.Unpin f).replacer g = true := h2
          unfold BufferPoolManager.Unpin at h2a
          rw [if_pos hp0] at h2a
          exact h2a
        exact Bool.noConfusion (h1.symm.trans h2X)
      · have h2X : evictableIn (m.replacer.setEvictable f
            (decide (((updateFrame m f (fun fr => { fr with meta := { fr.meta with pinCount := fr.meta.pinCount - 1 } })).frames.getD f default).meta.pinCount = 0))) g = true := by
          have h2a : evictableIn (m.Unpin f).replacer g = true := h2
          unfold BufferPoolManager.Unpin at h2a
          rw [if_neg hp0] at h2a
          exact h2a
        by_cases hgf : g = f
        · refine ⟨by rw [hgf], ?_⟩
          rw [hgf]
          rw [hgf] at h2X
          by_cases hb : ((updateFrame m f (fun fr => { fr with meta := { fr.meta with pinCount := fr.meta.pinCount - 1 } })).frames.getD f default).meta.pinCount = 0
          · have hres : ((m.Unpin f).frames.getD f default).meta.pinCount =
                ((updateFrame m f (fun fr => { fr with meta := { fr.meta with pinCount := fr.meta.pinCount - 1 } })).frames.getD f default).meta.pinCount := by
              unfold BufferPoolManager.Unpin
              rw [if_neg hp0]
            exact hres.trans hb
          · rw [decide_eq_false hb] at h2X
            rw [evictableIn_setEvictable_false_self] at h2X
            exact Bool.noConfusion h2X
        · rw [evictableIn_setEvictable_ne _ _ _ _ hgf] at h2X
          exact Bool.noConfusion (h1.symm.trans h2X)
  · intro m f hlt
    have h2 : ((m.Pin f).frames.getD f default).meta.pinCount =
        (m.frames.getD f default).meta.pinCount + 1 := by
      unfold BufferPoolManager.Pin updateFrame
      dsimp only
      rw [getD_set_eq _ _ _ _ hlt]
    rw [h2]
    exact Nat.succ_le_succ (Nat.zero_le _)

/-- Closed witness for C10: on a one-frame pool whose frame was pinned once,
the frame is not evictable, and unpinning it is what makes it evictable with
pin count zero; pinning the fresh pool's frame leaves pin count 1; and a
concrete `Insert` and `Get` on a one-frame tree never lower the frame's pin
count. -/
theorem only_unpin_marks_evictable_and_tree_keeps_frames_pinned_witness :
    (PoolOp.unpinOp 0 = PoolOp.unpinOp 0 ∧
      ((runPoolOp (PoolOp.unpinOp 0) c10Pool).frames.getD 0 default).meta.pinCount = 0) ∧
    1 ≤ (((NewBufferPoolManager 1 []).Pin 0).frames.getD 0 default).meta.pinCount ∧
    ((c10Tree.bpm.frames.getD 0 default).meta.pinCount ≤
      ((treeInsertSt 2 c10Tree 1 2).2.bpm.frames.getD 0 default).meta.pinCount) ∧
    ((c10Tree.bpm.frames.getD 0 default).meta.pinCount ≤
      ((treeGetSt 2 c10Tree 1).2.bpm.frames.getD 0 default).meta.pinCount) := by
  obtain ⟨ha, hb, hc, hd⟩ := only_unpin_marks_evictable_and_tree_keeps_frames_pinned
  refine ⟨ha (PoolOp.unpinOp 0) c10Pool 0 (by decide) (by decide),
    hb (NewBufferPoolManager 1 []) 0 (by decide), ?_, ?_⟩
  · exact ((hc 2 c10Tree 1 2).2 (fun f h => Bool.noConfusion h)).1 0
  · exact ((hd 2 c10Tree 1).2 (fun f h => Bool.noConfusion h)).1 0

end WtfDB
